import Mathlib

set_option maxHeartbeats 1000000

/-!
Shallow embedding of the summary-enrichment pipeline of
`scripts/generate-summaries.mjs` (molt-daily repository).

Conventions of the embedding:
* JavaScript string truthiness (`undefined`/`null`/`""` are falsy) is
  modelled by `strTruthy` over `Option String`.
* The on-disk JSON store is an association list from file path to document
  (`FS`); `loadJsonFile`/`saveJsonFile` model the script's helpers.
* `String.prototype.split` on the fixed separator regex, `trim` and
  template-join are modelled by the structurally recursive, kernel-evaluable
  functions `sSplit`, `sTrim` and `sJoin` over the character list of a
  `String` (JS `.length` on the relevant ASCII strings coincides with the
  character count used here).
* The single network request made by `generateSummary` is modelled by
  passing the response the request would receive, together with the list of
  responses that further requests would receive (the code never issues
  them).
* `Promise.allSettled` inside a batch is linearised in batch order: every
  task runs to completion and is observed independently, which is the
  observable behaviour the specification describes.
-/

/-- JavaScript truthiness of an optional string: `undefined`, `null` and
`""` are falsy, every other string is truthy. -/
def strTruthy : Option String → Bool
  | none => false
  | some s => if s = "" then false else true

/-- A feed post as read from a snapshot document
(`data-loader.ts` shape plus the mutable summary payload written by
`generate-summaries.mjs`). -/
structure Post where
  id : String
  title : String
  content : Option String
  summary : Option String
  title_zh : Option String
  title_en : Option String
deriving Repr, DecidableEq

/-- The three feed buckets of a snapshot document; a bucket may be missing
from the JSON (`data.feeds.hot || []` / `if (!posts) continue`). -/
structure Feeds where
  hot : Option (List Post)
  top : Option (List Post)
  new : Option (List Post)
deriving Repr, DecidableEq

/-- One snapshot document; `feeds` may be absent (`if (!data?.feeds)`). -/
structure SnapshotDoc where
  feeds : Option Feeds
deriving Repr, DecidableEq

/-- The JSON store: file path ↦ document, as an association list. -/
abbrev FS := List (String × SnapshotDoc)

/-- Models `loadJsonFile`: `null` when the path does not exist, else the parsed
document (generate-summaries.mjs lines 45-48). -/
def loadJsonFile : FS → String → Option SnapshotDoc
  | [], _ => none
  | (p, d) :: rest, path => if p = path then some d else loadJsonFile rest path

/-- Models `saveJsonFile`: full overwrite of the document at `path`
(generate-summaries.mjs lines 50-52). -/
def saveJsonFile : FS → String → SnapshotDoc → FS
  | [], path, doc => [(path, doc)]
  | (p, d) :: rest, path, doc =>
    if p = path then (path, doc) :: rest else (p, d) :: saveJsonFile rest path doc

/-- Models `data?.feeds` of the document at `path`. -/
def docFeeds (fs : FS) (path : String) : Option Feeds :=
  match loadJsonFile fs path with
  | none => none
  | some d => d.feeds

/-- Models `[...(data.feeds.hot || []), ...(data.feeds.top || []), ...(data.feeds.new || [])]`
(generate-summaries.mjs lines 76-80). -/
def postsOfFeeds (fd : Feeds) : List Post :=
  fd.hot.getD [] ++ fd.top.getD [] ++ fd.new.getD []

/-- All posts a document contributes to the index, in bucket order
hot → top → new; `[]` when the document or its `feeds` is absent. -/
def postsOf (fs : FS) (path : String) : List Post :=
  match docFeeds fs path with
  | none => []
  | some fd => postsOfFeeds fd

/-- Models `MIN_CONTENT_LENGTH` (generate-summaries.mjs line 22). -/
def MIN_CONTENT_LENGTH : Nat := 50

/-- Models `BATCH_SIZE` (generate-summaries.mjs line 20). -/
def BATCH_SIZE : Nat := 3

/-- Models `BATCH_DELAY_MS` (generate-summaries.mjs line 21). -/
def BATCH_DELAY_MS : Nat := 1000

/-- Splitter worker: scans the character list left to right, cutting at
every non-overlapping occurrence of `sep`, like JS `String.split` on a
fixed pattern.  `skip` counts separator characters still to consume,
`cur` is the reversed current part. -/
def chSplitGo (sep : List Char) : List Char → Nat → List Char → List (List Char)
  | [], _, cur => [cur.reverse]
  | _ :: rest, Nat.succ k, cur => chSplitGo sep rest k cur
  | c :: rest, 0, cur =>
    if sep.isPrefixOf (c :: rest) && !sep.isEmpty then
      cur.reverse :: chSplitGo sep rest (sep.length - 1) []
    else
      chSplitGo sep rest 0 (c :: cur)

/-- JS `content.split(/\n---\n/)` for a fixed separator string. -/
def sSplit (sep s : String) : List String :=
  (chSplitGo sep.data s.data 0 []).map String.mk

/-- Character-list trim: drop whitespace from both ends. -/
def chTrim (l : List Char) : List Char :=
  ((l.dropWhile Char.isWhitespace).reverse.dropWhile Char.isWhitespace).reverse

/-- JS `String.prototype.trim`. -/
def sTrim (s : String) : String :=
  String.mk (chTrim s.data)

/-- JS `Array.prototype.flatten(sep)`. -/
def sJoin (sep : String) : List String → String
  | [] => ""
  | p :: rest => rest.foldl (fun acc q => acc ++ sep ++ q) p

/-- The line-isolated separator token used by the parser and write-back. -/
def SEP : String := "\n---\n"

/-- Parsed bilingual generation outcome; `none` = field absent from the
returned object. -/
structure ParsedContent where
  titleZh : Option String := none
  summaryZh : Option String := none
  titleEn : Option String := none
  summaryEn : Option String := none
deriving Repr, DecidableEq

/-- Models `parseBilingualContent` (generate-summaries.mjs lines 144-162). -/
def parseBilingualContent (content : String) : ParsedContent :=
  let parts := sSplit SEP content
  if 4 ≤ parts.length then
    { titleZh := some (sTrim (parts.getD 0 ""))
      summaryZh := some (sTrim (parts.getD 1 ""))
      titleEn := some (sTrim (parts.getD 2 ""))
      summaryEn := some (sTrim (sJoin SEP (parts.drop 3))) }
  else if 2 ≤ parts.length then
    { summaryZh := some (sTrim (parts.getD 0 ""))
      summaryEn := some (sTrim (sJoin SEP (parts.drop 1))) }
  else
    { summaryEn := some content }

/-- One entry of the post index: representative post plus the
insertion-ordered set of files containing the post's id. -/
structure IndexEntry where
  post : Post
  files : List String
deriving Repr, DecidableEq

/-- The post index, in `Map` insertion order. -/
abbrev PM := List (String × IndexEntry)

/-- Models `Map.get` / `Map.has` of the index. -/
def pmFind : PM → String → Option IndexEntry
  | [], _ => none
  | (k, e) :: rest, id => if k = id then some e else pmFind rest id

/-- Models `Map.set` on an existing key: replace in place, keep position. -/
def pmUpdate : PM → String → IndexEntry → PM
  | [], _, _ => []
  | (k, e0) :: rest, id, e =>
    if k = id then (k, e) :: rest else (k, e0) :: pmUpdate rest id e

/-- Models `Set.add`: append iff not already present (JS `Set` keeps first-seen
insertion order). -/
def setAdd (xs : List String) (x : String) : List String :=
  if x ∈ xs then xs else xs ++ [x]

/-- The body of the indexing loop (generate-summaries.mjs lines 82-89):
skip posts with a falsy id, create the entry on first sight with the
current post as representative, then add the current file to its set. -/
def insertPost (pm : PM) (file : String) (post : Post) : PM :=
  if post.id = "" then pm
  else
    match pmFind pm post.id with
    | none => pm ++ [(post.id, ⟨post, [file]⟩)]
    | some e => pmUpdate pm post.id ⟨e.post, setAdd e.files file⟩

/-- The index-building phase of `collectPostsNeedingSummary`
(generate-summaries.mjs lines 69-90). -/
def collectIndex (fs : FS) (files : List String) : PM :=
  files.foldl
    (fun pm f =>
      match docFeeds fs f with
      | none => pm
      | some fd => (postsOfFeeds fd).foldl (fun pm p => insertPost pm f p) pm)
    []

/-- The eligibility filter of `collectPostsNeedingSummary`
(generate-summaries.mjs lines 92-101): skip posts with a truthy summary,
then posts without truthy content or with content shorter than
`MIN_CONTENT_LENGTH`. -/
def collectPostsNeedingSummary (fs : FS) (files : List String) : List IndexEntry :=
  (collectIndex fs files).filterMap
    (fun kv =>
      if strTruthy kv.2.post.summary then none
      else if !(strTruthy kv.2.post.content)
          || decide ((kv.2.post.content.getD "").length < MIN_CONTENT_LENGTH) then none
      else some kv.2)

/-- One HTTP response of the generation endpoint: status, body text, and
the extracted `choices[0].message.content` when one exists. -/
structure HttpResponse where
  status : Nat
  body : String
  content : Option String
deriving Repr, DecidableEq

/-- Errors `generateSummary` can raise, plus the `MaxRetries` error the
specification describes (the code never produces it). -/
inductive GenError where
  | apiStatus : Nat → String → GenError
  | emptyResponse : GenError
  | maxRetries : GenError
deriving Repr, DecidableEq

/-- Models `Response.ok` of the fetch API: status in 200-299. -/
def resOk (r : HttpResponse) : Bool :=
  decide (200 ≤ r.status) && decide (r.status ≤ 299)

/-- Models `generateSummary` (generate-summaries.mjs lines 104-142), as a function
of the response its single `fetch` receives.  `rest` models the responses
further requests would receive; the code never issues another request, so
it is unused.  Returns the outcome together with the number of requests
made. -/
def generateSummary (r : HttpResponse) (rest : List HttpResponse) :
    Except GenError String × Nat :=
  match rest with
  | _ =>
    if resOk r then
      match r.content with
      | none => (Except.error GenError.emptyResponse, 1)
      | some c =>
        if c = "" then (Except.error GenError.emptyResponse, 1)
        else (Except.ok c, 1)
    else
      (Except.error (GenError.apiStatus r.status r.body), 1)

/-- The per-post mutation of `writeSummaryToFiles`
(generate-summaries.mjs lines 177-185): store truthy bilingual titles,
and the combined summary when both summaries are truthy, otherwise the
raw response text. -/
def applyToPost (parsed : ParsedContent) (content : String) (post : Post) : Post :=
  { post with
    title_zh := if strTruthy parsed.titleZh then parsed.titleZh else post.title_zh
    title_en := if strTruthy parsed.titleEn then parsed.titleEn else post.title_en
    summary :=
      if strTruthy parsed.summaryZh && strTruthy parsed.summaryEn then
        some (parsed.summaryZh.getD "" ++ SEP ++ parsed.summaryEn.getD "")
      else some content }

/-- One feed bucket of the write-back loop: update every post whose id
matches, report whether any matched (`changed`). -/
def updateBucket (parsed : ParsedContent) (content postId : String) :
    Option (List Post) → Option (List Post) × Bool
  | none => (none, false)
  | some ps =>
    (some (ps.map fun p => if p.id = postId then applyToPost parsed content p else p),
     ps.any fun p => decide (p.id = postId))

/-- The per-document part of `writeSummaryToFiles`
(generate-summaries.mjs lines 169-189): walk the three buckets, mutate
matching posts, report whether anything matched. -/
def applyToDoc (parsed : ParsedContent) (content postId : String)
    (d : SnapshotDoc) : SnapshotDoc × Bool :=
  match d.feeds with
  | none => (d, false)
  | some fd =>
    let h := updateBucket parsed content postId fd.hot
    let t := updateBucket parsed content postId fd.top
    let n := updateBucket parsed content postId fd.new
    (⟨some ⟨h.1, t.1, n.1⟩⟩, h.2 || t.2 || n.2)

/-- One iteration of the write-back loop over the entry's file set
(generate-summaries.mjs lines 167-194): reload the file, update matching
posts, save only when something matched (`if (changed)`); the second
component records the paths actually saved. -/
def wbStep (parsed : ParsedContent) (content postId : String)
    (acc : FS × List String) (file : String) : FS × List String :=
  match loadJsonFile acc.1 file with
  | none => acc
  | some d =>
    let r := applyToDoc parsed content postId d
    if r.2 then (saveJsonFile acc.1 file r.1, acc.2 ++ [file]) else acc

/-- Models `writeSummaryToFiles` (generate-summaries.mjs lines 164-195): parse
the response once, then reload-update-save each file of the set.  Also
returns the list of paths actually saved. -/
def writeSummaryToFiles (fs : FS) (postId content : String)
    (files : List String) : FS × List String :=
  files.foldl (wbStep (parseBilingualContent content) content postId) (fs, [])

/-- Running state of the orchestrator (`main`, generate-summaries.mjs
lines 211-251): store, outcome counters, saved paths, attempted ids,
inter-batch delays taken. -/
structure PipeState where
  fs : FS
  successCount : Nat
  failCount : Nat
  saves : List String
  genCalls : List String
  delays : List Nat
deriving Repr, DecidableEq

/-- Initial orchestrator state over a store. -/
def initState (fs : FS) : PipeState :=
  ⟨fs, 0, 0, [], [], []⟩

/-- One settled task of a batch (generate-summaries.mjs lines 199-206):
generate, and on success write the summary back to every file of the
entry; the outcome oracle abstracts the network. -/
def stepEntry (oracle : Post → Except GenError String)
    (st : PipeState) (e : IndexEntry) : PipeState :=
  match oracle e.post with
  | Except.ok t =>
    let r := writeSummaryToFiles st.fs e.post.id t e.files
    { st with
      fs := r.1
      successCount := st.successCount + 1
      saves := st.saves ++ r.2
      genCalls := st.genCalls ++ [e.post.id] }
  | Except.error _ =>
    { st with
      failCount := st.failCount + 1
      genCalls := st.genCalls ++ [e.post.id] }

/-- Models `processBatch` (generate-summaries.mjs lines 197-209):
`Promise.allSettled` over the batch, linearised in batch order; every
task settles and is observed independently. -/
def processBatch (oracle : Post → Except GenError String)
    (st : PipeState) (batch : List IndexEntry) : PipeState :=
  batch.foldl (stepEntry oracle) st

/-- Models `entries.slice(i, i + BATCH_SIZE)` for `i = 0, 3, 6, …`: consecutive
batches of size 3, last one possibly smaller. -/
def chunkBatches {α : Type} : List α → List (List α)
  | [] => []
  | [a] => [[a]]
  | [a, b] => [[a, b]]
  | a :: b :: c :: rest => [a, b, c] :: chunkBatches rest

/-- The batch loop of `main` (generate-summaries.mjs lines 226-243):
process batches strictly sequentially, pausing `BATCH_DELAY_MS` after a
batch exactly when entries remain. -/
def runBatches (oracle : Post → Except GenError String) :
    PipeState → List (List IndexEntry) → PipeState
  | st, [] => st
  | st, b :: rest =>
    let st1 := processBatch oracle st b
    let st2 :=
      if rest.isEmpty then st1
      else { st1 with delays := st1.delays ++ [BATCH_DELAY_MS] }
    runBatches oracle st2 rest

/-- Models `main` (generate-summaries.mjs lines 211-251): collect eligible
entries, return early when none, else run the batches and compute the
process exit code (`1` only when every attempted post failed). -/
def runPipeline (oracle : Post → Except GenError String)
    (fs : FS) (files : List String) : PipeState × Nat :=
  if (collectPostsNeedingSummary fs files).isEmpty then (initState fs, 0)
  else
    let st := runBatches oracle (initState fs)
      (chunkBatches (collectPostsNeedingSummary fs files))
    (st, if st.successCount = 0 ∧ 0 < st.failCount then 1 else 0)

/-- Folding the generation-and-write-back step over a list of entries,
ignoring batching; used to state what the orchestrator's final store is. -/
def processAll (oracle : Post → Except GenError String)
    (fs : FS) (entries : List IndexEntry) : FS :=
  entries.foldl
    (fun fs e =>
      match oracle e.post with
      | Except.ok t => (writeSummaryToFiles fs e.post.id t e.files).1
      | Except.error _ => fs)
    fs

/-- Decidable equality of generation outcomes, for concrete evaluation. -/
instance exceptGenDecEq : DecidableEq (Except GenError String) := fun a b =>
  match a, b with
  | Except.ok x, Except.ok y =>
    if h : x = y then isTrue (by rw [h])
    else isFalse (fun hh => h (Except.ok.inj hh))
  | Except.error x, Except.error y =>
    if h : x = y then isTrue (by rw [h])
    else isFalse (fun hh => h (Except.error.inj hh))
  | Except.ok x, Except.error y => isFalse (fun hh => Except.noConfusion hh)
  | Except.error x, Except.ok y => isFalse (fun hh => Except.noConfusion hh)

/-- A rate-limited response of the generation endpoint. -/
def rateLimitRes : HttpResponse := ⟨429, "rate limited", none⟩

/-- A successful response of the generation endpoint. -/
def successRes : HttpResponse := ⟨200, "", some "SUMMARY"⟩

/-- A four-part generation response used as a concrete parser input. -/
def cFour : String := "a\n---\nb\n---\nc\n---\nd"

/-- Keys of the index in insertion order. -/
def pmKeys (pm : PM) : List String := pm.map Prod.fst

/-- Document-order, bucket-order, sequence-order traversal of every post
the store's documents contribute, tagged with its file. -/
def pairsOf (fs : FS) (files : List String) : List (String × Post) :=
  files.flatMap (fun f => (postsOf fs f).map (fun p => (f, p)))

/-- The same traversal, posts only: the "first occurrence seen" order of
the claim (document order, then bucket order hot→top→new, then sequence
order within a bucket). -/
def postsSeq (fs : FS) (files : List String) : List Post :=
  files.flatMap (postsOf fs)

/-- The indexing fold over a tagged traversal sequence. -/
def collectGo (pm : PM) (pairs : List (String × Post)) : PM :=
  pairs.foldl (fun pm q => insertPost pm q.1 q.2) pm

/-- File tags of the occurrences of `id` along a traversal. -/
def filesOfId (pairs : List (String × Post)) (id : String) : List String :=
  (pairs.filter (fun q => decide (q.2.id = id))).map Prod.fst

/-- Does the document at `path` contain a post with identity `id`
(in any of the three buckets)? -/
def fileHasPost (fs : FS) (path id : String) : Bool :=
  (postsOf fs path).any (fun p => decide (p.id = id))

/-- Invariant of the index: keys are pairwise distinct and non-empty. -/
def pmInv (pm : PM) : Prop :=
  (pmKeys pm).Nodup ∧ ∀ k ∈ pmKeys pm, k ≠ ""

/-- Did the generation call for this entry succeed? -/
def okB (oracle : Post → Except GenError String) (e : IndexEntry) : Bool :=
  match oracle e.post with
  | Except.ok _ => true
  | Except.error _ => false

/-- Fifty characters of content, meeting the eligibility threshold. -/
def exContent : String := "aaaaaaaaaaaaaaaaaaaaaaaaaaaaaaaaaaaaaaaaaaaaaaaaaa"

/-- A post with id `"abc"` appearing in two documents of the store. -/
def exPost : Post := ⟨"abc", "T", some exContent, none, none, none⟩

/-- The `latest.json` document: `"abc"` in the hot bucket. -/
def latestDoc : SnapshotDoc := ⟨some ⟨some [exPost], none, none⟩⟩

/-- An archive document: `"abc"` in the top bucket. -/
def archiveDoc : SnapshotDoc := ⟨some ⟨none, some [exPost], none⟩⟩

/-- Concrete store with the same post id in two documents. -/
def exFS : FS := [("latest.json", latestDoc), ("archive.json", archiveDoc)]

/-- The store's document listing. -/
def exFiles : List String := ["latest.json", "archive.json"]

/-- Posts a single document holds, across its three buckets. -/
def postsOfDoc (d : SnapshotDoc) : List Post :=
  match d.feeds with
  | none => []
  | some fd => postsOfFeeds fd

/-- The per-post transform the write-back applies to a bucket entry. -/
def postApply (parsed : ParsedContent) (content postId : String) (p : Post) : Post :=
  if p.id = postId then applyToPost parsed content p else p

/-- Whether the write-back loop would mark the file changed and save it. -/
def wbChanged (parsed : ParsedContent) (content postId : String)
    (fs : FS) (f : String) : Bool :=
  match loadJsonFile fs f with
  | none => false
  | some d => (applyToDoc parsed content postId d).2

/-- A generation response whose first separator-delimited part is empty:
the parser produces `titleZh = some ""`. -/
def cxContent : String := "\n---\nzh\n---\net\n---\nen"

/-- A post matching the write-back id, with no stored titles. -/
def cxPost : Post := ⟨"x", "t", some "c", none, none, none⟩

/-- A one-document store holding `cxPost`. -/
def cxFS : FS := [("f", ⟨some ⟨some [cxPost], none, none⟩⟩)]

/-- The summary text a run writes for a given post id: the generation
output of the unique eligible entry with that id, when it succeeded. -/
def sigmaOf (oracle : Post → Except GenError String) (entries : List IndexEntry)
    (id : String) : Option String :=
  match entries.find? (fun e => decide (e.post.id = id)) with
  | some e =>
    match oracle e.post with
    | Except.ok t => some t
    | Except.error _ => none
  | none => none

/-- The cumulative per-post effect of one run's successful write-backs. -/
def transformPost (oracle : Post → Except GenError String)
    (entries : List IndexEntry) (p : Post) : Post :=
  match sigmaOf oracle entries p.id with
  | some t => applyToPost (parseBilingualContent t) t p
  | none => p

/-- Decidable form of "this entry's generation call succeeds with a
non-empty text" (`generateSummary` can only resolve with non-empty text:
empty extracted content raises EmptyResponse). -/
def oracleOkNonempty (oracle : Post → Except GenError String)
    (e : IndexEntry) : Bool :=
  match oracle e.post with
  | Except.ok t => !(decide (t = ""))
  | Except.error _ => false

/-- A generation oracle that always succeeds with a bilingual response. -/
def wOracle : Post → Except GenError String := fun _ => Except.ok "zh\n---\nen"

/-- A second-run oracle (never consulted, since nothing is eligible). -/
def wOracle2 : Post → Except GenError String :=
  fun _ => Except.error GenError.emptyResponse

/-- C2 counterexample: on the input `"A \n---\nB"` the separator splits it
into the two parts `["A ", "B"]`, and the claim says the Chinese summary is
part 0, i.e. `"A "`; the code trims the part and returns `"A"`, so the
claimed equality fails. -/
theorem parser_trim_cx :
    (sSplit SEP "A \n---\nB").getD 0 "" = "A " ∧
    (parseBilingualContent "A \n---\nB").summaryZh = some "A" ∧
    (parseBilingualContent "A \n---\nB").summaryZh
      ≠ some ((sSplit SEP "A \n---\nB").getD 0 "") := by
  decide

/-- C2 (amended): `parse` splits on the line-isolated separator and, with
≥4 parts, returns titleZh/summaryZh/titleEn = parts 0/1/2 each trimmed of
surrounding whitespace and summaryEn = parts 3.. rejoined with the
separator and trimmed; with 2-3 parts, only summaryZh = part 0 trimmed and
summaryEn = the remaining parts rejoined and trimmed; with fewer than 2
parts, only summaryEn = the entire input text, untrimmed. -/
theorem parser_cases_spec (content : String) :
    (4 ≤ (sSplit SEP content).length →
      parseBilingualContent content =
        ⟨some (sTrim ((sSplit SEP content).getD 0 "")),
         some (sTrim ((sSplit SEP content).getD 1 "")),
         some (sTrim ((sSplit SEP content).getD 2 "")),
         some (sTrim (sJoin SEP ((sSplit SEP content).drop 3)))⟩) ∧
    ((sSplit SEP content).length = 2 ∨ (sSplit SEP content).length = 3 →
      parseBilingualContent content =
        ⟨none, some (sTrim ((sSplit SEP content).getD 0 "")), none,
         some (sTrim (sJoin SEP ((sSplit SEP content).drop 1)))⟩) ∧
    ((sSplit SEP content).length < 2 →
      parseBilingualContent content = ⟨none, none, none, some content⟩) := by
  unfold parseBilingualContent
  refine ⟨fun h4 => ?_, fun h23 => ?_, fun h1 => ?_⟩
  · rw [if_pos h4]
  · have hn4 : ¬ 4 ≤ (sSplit SEP content).length := by omega
    have h2 : 2 ≤ (sSplit SEP content).length := by omega
    rw [if_neg hn4, if_pos h2]
  · have hn4 : ¬ 4 ≤ (sSplit SEP content).length := by omega
    have hn2 : ¬ 2 ≤ (sSplit SEP content).length := by omega
    rw [if_neg hn4, if_neg hn2]

/-- Witness for `parser_cases_spec` at a concrete four-part input. -/
theorem parser_cases_spec_witness :
    4 ≤ (sSplit SEP cFour).length ∧
    parseBilingualContent cFour =
      ⟨some (sTrim ((sSplit SEP cFour).getD 0 "")),
       some (sTrim ((sSplit SEP cFour).getD 1 "")),
       some (sTrim ((sSplit SEP cFour).getD 2 "")),
       some (sTrim (sJoin SEP ((sSplit SEP cFour).drop 3)))⟩ :=
  ⟨by decide, (parser_cases_spec cFour).1 (by decide)⟩

/-- C3 counterexample: the response stream answers the first request with a
rate-limit status and would answer a retry with success, yet the call fails
immediately with the upstream-status error after exactly one request — it
does not retry to the available success and never produces a MaxRetries
error, contradicting the claimed backoff-and-retry policy. -/
theorem generate_rate_limit_cx :
    generateSummary rateLimitRes [rateLimitRes, successRes]
      = (Except.error (GenError.apiStatus 429 "rate limited"), 1) ∧
    (generateSummary rateLimitRes [rateLimitRes, successRes]).1 ≠ Except.ok "SUMMARY" ∧
    (generateSummary rateLimitRes [rateLimitRes, successRes]).1
      ≠ Except.error GenError.maxRetries := by
  refine ⟨rfl, by decide, by decide⟩

/-- C3 (amended): every non-success status — the rate-limit status
included — makes the generation call fail immediately with the
upstream-status error after exactly one request; there is no backoff, no
retry and no MaxRetries outcome in the generation client. -/
theorem generate_fails_immediately (r : HttpResponse) (rest : List HttpResponse)
    (h : resOk r = false) :
    generateSummary r rest = (Except.error (GenError.apiStatus r.status r.body), 1) := by
  unfold generateSummary
  rw [h]
  simp

/-- Witness for `generate_fails_immediately` at the rate-limit response. -/
theorem generate_fails_immediately_witness :
    resOk rateLimitRes = false ∧
    generateSummary rateLimitRes []
      = (Except.error (GenError.apiStatus 429 "rate limited"), 1) :=
  ⟨by decide, generate_fails_immediately rateLimitRes [] (by decide)⟩

/-- C10: the parser is total and always defines the English-summary field
(tiers 1-2 from the rejoined trailing parts, tier 3 from the whole input);
the titles are defined exactly in the ≥4-part tier and the Chinese summary
exactly in the ≥2-part tiers. -/
theorem parser_totality_spec (content : String) :
    (parseBilingualContent content).summaryEn.isSome = true ∧
    ((parseBilingualContent content).titleZh.isSome = true
      ↔ 4 ≤ (sSplit SEP content).length) ∧
    ((parseBilingualContent content).titleEn.isSome = true
      ↔ 4 ≤ (sSplit SEP content).length) ∧
    ((parseBilingualContent content).summaryZh.isSome = true
      ↔ 2 ≤ (sSplit SEP content).length) := by
  unfold parseBilingualContent
  by_cases h4 : 4 ≤ (sSplit SEP content).length
  · have h2 : 2 ≤ (sSplit SEP content).length := by omega
    simp [h4, h2]
  · by_cases h2 : 2 ≤ (sSplit SEP content).length
    · simp [h4, h2]
    · simp [h4, h2]

lemma pmFind_append_none {pm : PM} {id : String} (h : pmFind pm id = none)
    (e : IndexEntry) : pmFind (pm ++ [(id, e)]) id = some e := by
  induction pm with
  | nil => simp [pmFind]
  | cons kv rest ih =>
    obtain ⟨k, e0⟩ := kv
    simp only [pmFind] at h
    simp only [List.cons_append, pmFind]
    by_cases hk : k = id
    · rw [if_pos hk] at h; cases h
    · rw [if_neg hk] at h ⊢
      exact ih h

lemma pmFind_append_ne {pm : PM} {id k : String} (h : k ≠ id) (e : IndexEntry) :
    pmFind (pm ++ [(k, e)]) id = pmFind pm id := by
  induction pm with
  | nil => simp [pmFind, h]
  | cons kv rest ih =>
    obtain ⟨k0, e0⟩ := kv
    simp only [List.cons_append, pmFind]
    by_cases hk : k0 = id
    · rw [if_pos hk, if_pos hk]
    · rw [if_neg hk, if_neg hk]
      exact ih

lemma pmFind_pmUpdate_self {pm : PM} {id : String} {e0 : IndexEntry}
    (h : pmFind pm id = some e0) (e : IndexEntry) :
    pmFind (pmUpdate pm id e) id = some e := by
  induction pm with
  | nil => cases h
  | cons kv rest ih =>
    obtain ⟨k, e1⟩ := kv
    simp only [pmFind] at h
    simp only [pmUpdate]
    by_cases hk : k = id
    · rw [if_pos hk]
      simp [pmFind, hk]
    · rw [if_neg hk]
      simp only [pmFind]
      rw [if_neg hk]
      rw [if_neg hk] at h
      exact ih h

lemma pmFind_pmUpdate_ne {pm : PM} {k id : String} (h : k ≠ id) (e : IndexEntry) :
    pmFind (pmUpdate pm k e) id = pmFind pm id := by
  induction pm with
  | nil => rfl
  | cons kv rest ih =>
    obtain ⟨k0, e0⟩ := kv
    simp only [pmUpdate]
    by_cases hk : k0 = k
    · rw [if_pos hk]
      have hne : k0 ≠ id := by rw [hk]; exact h
      simp [pmFind, hne]
    · rw [if_neg hk]
      simp only [pmFind]
      by_cases h0 : k0 = id
      · rw [if_pos h0, if_pos h0]
      · rw [if_neg h0, if_neg h0]
        exact ih

lemma pmFind_insertPost_ne {pm : PM} {f : String} {p : Post} {id : String}
    (h : p.id ≠ id) : pmFind (insertPost pm f p) id = pmFind pm id := by
  unfold insertPost
  by_cases h0 : p.id = ""
  · rw [if_pos h0]
  · rw [if_neg h0]
    cases hf : pmFind pm p.id with
    | none => exact pmFind_append_ne h _
    | some e => exact pmFind_pmUpdate_ne h _

lemma pmFind_eq_none_iff (pm : PM) (id : String) :
    pmFind pm id = none ↔ id ∉ pmKeys pm := by
  induction pm with
  | nil => simp [pmFind, pmKeys]
  | cons kv rest ih =>
    obtain ⟨k, e⟩ := kv
    simp only [pmFind]
    by_cases hk : k = id
    · subst hk
      simp [pmKeys]
    · rw [if_neg hk]
      simp only [pmKeys, List.map_cons, List.mem_cons] at ih ⊢
      constructor
      · intro hh
        rintro (he | he)
        · exact hk he.symm
        · exact (ih.mp hh) he
      · intro hh
        exact ih.mpr (fun he => hh (Or.inr he))

lemma pmFind_of_mem {pm : PM} {id : String} {e : IndexEntry}
    (hnd : (pmKeys pm).Nodup) (h : (id, e) ∈ pm) : pmFind pm id = some e := by
  induction pm with
  | nil => cases h
  | cons kv rest ih =>
    obtain ⟨k, e0⟩ := kv
    simp only [pmKeys, List.map_cons, List.nodup_cons] at hnd
    rcases List.mem_cons.mp h with h1 | h1
    · cases h1
      simp [pmFind]
    · have hk : k ≠ id := by
        intro hk
        subst hk
        exact hnd.1 (List.mem_map.mpr ⟨(k, e), h1, rfl⟩)
      simp only [pmFind, if_neg hk]
      exact ih hnd.2 h1

lemma mem_of_pmFind {pm : PM} {id : String} {e : IndexEntry}
    (h : pmFind pm id = some e) : (id, e) ∈ pm := by
  induction pm with
  | nil => cases h
  | cons kv rest ih =>
    obtain ⟨k, e0⟩ := kv
    simp only [pmFind] at h
    by_cases hk : k = id
    · rw [if_pos hk] at h
      cases h
      subst hk
      exact List.mem_cons_self _ _
    · rw [if_neg hk] at h
      exact List.mem_cons_of_mem _ (ih h)

lemma collectGo_cons (pm : PM) (q : String × Post) (pairs : List (String × Post)) :
    collectGo pm (q :: pairs) = collectGo (insertPost pm q.1 q.2) pairs := rfl

lemma collectGo_append (pm : PM) (l1 l2 : List (String × Post)) :
    collectGo pm (l1 ++ l2) = collectGo (collectGo pm l1) l2 := by
  simp [collectGo, List.foldl_append]

lemma setAdd_nil (x : String) : setAdd [] x = [x] := by
  simp [setAdd]

/-- Pointwise characterisation of the indexing fold: the entry for a
non-empty `id` keeps the representative it had (or takes the first
occurrence along the traversal), and its file set folds `Set.add` over all
file tags of occurrences of `id`. -/
lemma pmFind_collectGo (id : String) (hid : id ≠ "") :
    ∀ (pairs : List (String × Post)) (pm : PM),
      pmFind (collectGo pm pairs) id =
        match pmFind pm id with
        | some e => some ⟨e.post, List.foldl setAdd e.files (filesOfId pairs id)⟩
        | none =>
          match pairs.find? (fun q => decide (q.2.id = id)) with
          | some q => some ⟨q.2, List.foldl setAdd [] (filesOfId pairs id)⟩
          | none => none
  | [], pm => by
    cases h : pmFind pm id <;> simp [collectGo, filesOfId, h]
  | (f, p) :: rest, pm => by
    rw [collectGo_cons]
    by_cases hp : p.id = id
    · have hfilter : filesOfId ((f, p) :: rest) id = f :: filesOfId rest id := by
        simp [filesOfId, List.filter_cons, hp]
      have hfind : ((f, p) :: rest).find? (fun q => decide (q.2.id = id)) = some (f, p) := by
        simp [List.find?_cons_of_pos, hp]
      cases hpm : pmFind pm id with
      | none =>
        have hins : insertPost pm f p = pm ++ [(id, ⟨p, [f]⟩)] := by
          unfold insertPost
          rw [if_neg (hp ▸ hid), hp, hpm]
        have hfind1 : pmFind (insertPost pm f p) id = some ⟨p, [f]⟩ := by
          rw [hins]
          exact pmFind_append_none hpm _
        rw [pmFind_collectGo id hid rest (insertPost pm f p), hfind1]
        simp [hpm, hfind, hfilter, setAdd_nil]
      | some e =>
        have hins : insertPost pm f p = pmUpdate pm id ⟨e.post, setAdd e.files f⟩ := by
          unfold insertPost
          rw [if_neg (hp ▸ hid), hp, hpm]
        have hfind1 : pmFind (insertPost pm f p) id = some ⟨e.post, setAdd e.files f⟩ := by
          rw [hins]
          exact pmFind_pmUpdate_self hpm _
        rw [pmFind_collectGo id hid rest (insertPost pm f p), hfind1]
        simp [hpm, hfilter]
    · have hfilter : filesOfId ((f, p) :: rest) id = filesOfId rest id := by
        simp [filesOfId, List.filter_cons, hp]
      have hfind : ((f, p) :: rest).find? (fun q => decide (q.2.id = id))
          = rest.find? (fun q => decide (q.2.id = id)) := by
        simp [List.find?_cons_of_neg, hp]
      have hfind1 : pmFind (insertPost pm f p) id = pmFind pm id :=
        pmFind_insertPost_ne hp
      rw [pmFind_collectGo id hid rest (insertPost pm f p), hfind1, hfilter]
      cases hpm : pmFind pm id <;> simp [hpm, hfind]

lemma pmKeys_append (pm : PM) (kv : String × IndexEntry) :
    pmKeys (pm ++ [kv]) = pmKeys pm ++ [kv.1] := by
  simp [pmKeys]

lemma pmKeys_pmUpdate (pm : PM) (id : String) (e : IndexEntry) :
    pmKeys (pmUpdate pm id e) = pmKeys pm := by
  induction pm with
  | nil => rfl
  | cons kv rest ih =>
    obtain ⟨k, e0⟩ := kv
    simp only [pmUpdate]
    by_cases hk : k = id
    · rw [if_pos hk]
      simp [pmKeys, hk]
    · rw [if_neg hk]
      simp [pmKeys] at ih ⊢
      exact ih

lemma insertPost_inv {pm : PM} (h : pmInv pm) (f : String) (p : Post) :
    pmInv (insertPost pm f p) := by
  unfold insertPost
  by_cases h0 : p.id = ""
  · rw [if_pos h0]
    exact h
  · rw [if_neg h0]
    cases hf : pmFind pm p.id with
    | none =>
      have hnotin : p.id ∉ pmKeys pm := (pmFind_eq_none_iff pm p.id).mp hf
      constructor
      · rw [pmKeys_append]
        simp [List.nodup_append, h.1, hnotin]
      · intro k hk
        rw [pmKeys_append] at hk
        rcases List.mem_append.mp hk with hk | hk
        · exact h.2 k hk
        · simp at hk
          rw [hk]
          exact h0
    | some e =>
      constructor
      · rw [pmKeys_pmUpdate]
        exact h.1
      · rw [pmKeys_pmUpdate]
        exact h.2

lemma collectGo_inv {pm : PM} (h : pmInv pm) (pairs : List (String × Post)) :
    pmInv (collectGo pm pairs) := by
  induction pairs generalizing pm with
  | nil => exact h
  | cons q rest ih => exact ih (insertPost_inv h q.1 q.2)

lemma collectGo_file (fs : FS) (pm : PM) (f : String) :
    (match docFeeds fs f with
     | none => pm
     | some fd => (postsOfFeeds fd).foldl (fun pm p => insertPost pm f p) pm)
    = collectGo pm ((postsOf fs f).map (fun p => (f, p))) := by
  cases hdf : docFeeds fs f with
  | none => simp [postsOf, hdf, collectGo]
  | some fd => simp [postsOf, hdf, collectGo, List.foldl_map]

lemma collectIndex_go_aux (fs : FS) :
    ∀ (files : List String) (pm : PM),
      List.foldl
        (fun pm f =>
          match docFeeds fs f with
          | none => pm
          | some fd => (postsOfFeeds fd).foldl (fun pm p => insertPost pm f p) pm)
        pm files
      = collectGo pm (pairsOf fs files)
  | [], pm => by simp [pairsOf, collectGo]
  | f :: rest, pm => by
    rw [List.foldl_cons, collectIndex_go_aux fs rest _]
    have hp : pairsOf fs (f :: rest)
        = (postsOf fs f).map (fun p => (f, p)) ++ pairsOf fs rest := by
      simp [pairsOf]
    rw [hp, collectGo_append, collectGo_file]

lemma collectIndex_def_go (fs : FS) (files : List String) :
    collectIndex fs files = collectGo [] (pairsOf fs files) :=
  collectIndex_go_aux fs files []

lemma collectIndex_inv (fs : FS) (files : List String) :
    pmInv (collectIndex fs files) := by
  rw [collectIndex_def_go]
  exact collectGo_inv ⟨by simp [pmKeys], by simp [pmKeys]⟩ _

lemma foldl_setAdd_of_mem :
    ∀ (l acc : List String), (∀ x ∈ l, x ∈ acc) → List.foldl setAdd acc l = acc
  | [], _, _ => rfl
  | x :: rest, acc, h => by
    have hx : x ∈ acc := h x (by simp)
    rw [List.foldl_cons]
    rw [show setAdd acc x = acc from if_pos hx]
    exact foldl_setAdd_of_mem rest acc (fun y hy => h y (by simp [hy]))

lemma foldl_setAdd_const :
    ∀ (l acc : List String) (f : String),
      (∀ x ∈ l, x = f) → f ∉ acc → l ≠ [] → List.foldl setAdd acc l = acc ++ [f]
  | [], _, _, _, _, hne => absurd rfl hne
  | x :: rest, acc, f, hall, hni, _ => by
    have hx : x = f := hall x (by simp)
    subst hx
    rw [List.foldl_cons]
    rw [show setAdd acc x = acc ++ [x] from if_neg hni]
    apply foldl_setAdd_of_mem
    intro y hy
    have hyx : y = x := hall y (by simp [hy])
    simp [hyx]

lemma foldl_setAdd_flatMap :
    ∀ (files : List String) (g : String → List String) (acc : List String),
      files.Nodup → (∀ f x, x ∈ g f → x = f) → (∀ f ∈ files, f ∉ acc) →
      List.foldl setAdd acc (files.flatMap g)
        = acc ++ files.filter (fun f => !(g f).isEmpty)
  | [], g, acc, _, _, _ => by simp
  | f :: rest, g, acc, hnd, hall, hacc => by
    rw [List.flatMap_cons, List.foldl_append]
    simp only [List.nodup_cons] at hnd
    by_cases hg : g f = []
    · rw [hg]
      simp only [List.foldl_nil]
      rw [foldl_setAdd_flatMap rest g acc hnd.2 hall
        (fun f' hf' => hacc f' (by simp [hf']))]
      rw [List.filter_cons]
      simp [hg]
    · have h1 : List.foldl setAdd acc (g f) = acc ++ [f] :=
        foldl_setAdd_const (g f) acc f (hall f) (hacc f (by simp)) hg
      rw [h1]
      rw [foldl_setAdd_flatMap rest g (acc ++ [f]) hnd.2 hall ?hacc2]
      case hacc2 =>
        intro f' hf'
        simp only [List.mem_append, List.mem_singleton]
        rintro (hin | hin)
        · exact hacc f' (by simp [hf']) hin
        · rw [hin] at hf'
          exact hnd.1 hf'
      rw [List.filter_cons]
      have hne : (!(g f).isEmpty) = true := by
        simp [List.isEmpty_iff, hg]
      simp [hne, List.append_assoc]

lemma filesOfId_pairsOf (fs : FS) (files : List String) (id : String) :
    filesOfId (pairsOf fs files) id
      = files.flatMap
          (fun f => ((postsOf fs f).filter (fun p => decide (p.id = id))).map
            (fun _ => f)) := by
  induction files with
  | nil => rfl
  | cons f rest ih =>
    have hpairs : pairsOf fs (f :: rest)
        = (postsOf fs f).map (fun p => (f, p)) ++ pairsOf fs rest := by
      simp [pairsOf]
    rw [List.flatMap_cons, ← ih]
    rw [hpairs]
    unfold filesOfId
    rw [List.filter_append, List.map_append]
    congr 1
    rw [List.filter_map, List.map_map]
    rfl

lemma isEmpty_map {α β : Type} (f : α → β) (l : List α) :
    (l.map f).isEmpty = l.isEmpty := by
  cases l <;> rfl

lemma isEmpty_filter_any {α : Type} (l : List α) (p : α → Bool) :
    (l.filter p).isEmpty = !(l.any p) := by
  induction l with
  | nil => rfl
  | cons a rest ih =>
    rw [List.filter_cons, List.any_cons]
    cases hpa : p a <;> simp [hpa, ih]

lemma setfold_filesOfId (fs : FS) (files : List String) (id : String)
    (hnd : files.Nodup) :
    List.foldl setAdd [] (filesOfId (pairsOf fs files) id)
      = files.filter (fun f => fileHasPost fs f id) := by
  rw [filesOfId_pairsOf]
  rw [foldl_setAdd_flatMap files _ [] hnd ?hall (by simp)]
  · rw [List.nil_append]
    apply List.filter_congr
    intro f _
    rw [isEmpty_map, isEmpty_filter_any]
    simp [fileHasPost]
  case hall =>
    intro f x hx
    rcases List.mem_map.mp hx with ⟨p, _, hxe⟩
    exact hxe.symm

/-- Membership form of the index characterisation: every index entry has a
non-empty key equal to its representative's id, its representative is the
first occurrence of that id along the traversal, and its file set folds
`Set.add` over the id's occurrence tags. -/
lemma collectIndex_mem_char (fs : FS) (files : List String) {id : String}
    {e : IndexEntry} (h : (id, e) ∈ collectIndex fs files) :
    id ≠ "" ∧ e.post.id = id ∧
    (postsSeq fs files).find? (fun p => decide (p.id = id)) = some e.post ∧
    e.files = List.foldl setAdd [] (filesOfId (pairsOf fs files) id) := by
  have hinv := collectIndex_inv fs files
  have hid : id ≠ "" := hinv.2 id (List.mem_map.mpr ⟨(id, e), h, rfl⟩)
  have hfind : pmFind (collectIndex fs files) id = some e :=
    pmFind_of_mem hinv.1 h
  rw [collectIndex_def_go, pmFind_collectGo id hid (pairsOf fs files) []] at hfind
  cases hq : (pairsOf fs files).find? (fun q => decide (q.2.id = id)) with
  | none =>
    rw [show pmFind ([] : PM) id = none from rfl, hq] at hfind
    simp at hfind
  | some q =>
    rw [show pmFind ([] : PM) id = none from rfl, hq] at hfind
    simp only [Option.some.injEq] at hfind
    have hqid : q.2.id = id := by
      have := List.find?_some hq
      simpa using this
    have hseq : postsSeq fs files = (pairsOf fs files).map Prod.snd := by
      unfold postsSeq pairsOf
      rw [List.map_flatMap]
      congr 1
      funext f
      rw [List.map_map]
      simp
    refine ⟨hid, ?_, ?_, ?_⟩
    · rw [← hfind]
      exact hqid
    · rw [hseq, List.find?_map]
      have hpred : ((fun p => decide (p.id = id)) ∘ Prod.snd)
          = (fun q : String × Post => decide (q.2.id = id)) := rfl
      rw [hpred, hq, ← hfind]
      rfl
    · rw [← hfind]

/-- Membership in the eligible list: indexed, no truthy summary, truthy
content, and content length at least the threshold. -/
lemma mem_collectNeeds (fs : FS) (files : List String) (e : IndexEntry) :
    e ∈ collectPostsNeedingSummary fs files ↔
      (∃ id, (id, e) ∈ collectIndex fs files) ∧
      strTruthy e.post.summary = false ∧
      strTruthy e.post.content = true ∧
      MIN_CONTENT_LENGTH ≤ (e.post.content.getD "").length := by
  unfold collectPostsNeedingSummary
  rw [List.mem_filterMap]
  constructor
  · rintro ⟨⟨id, e0⟩, hkv, hsel⟩
    by_cases h1 : strTruthy e0.post.summary
    · rw [if_pos h1] at hsel
      cases hsel
    · rw [if_neg h1] at hsel
      by_cases h2 : (!(strTruthy e0.post.content)
          || decide ((e0.post.content.getD "").length < MIN_CONTENT_LENGTH)) = true
      · rw [if_pos h2] at hsel
        cases hsel
      · rw [if_neg h2] at hsel
        cases hsel
        simp only [Bool.not_eq_true] at h1
        simp only [Bool.or_eq_true, Bool.not_eq_true', decide_eq_true_eq,
          not_or, not_lt] at h2
        refine ⟨⟨id, hkv⟩, h1, ?_, h2.2⟩
        simp only [Bool.not_eq_false] at h2
        exact h2.1
  · rintro ⟨⟨id, hmem⟩, h1, h2, h3⟩
    refine ⟨(id, e), hmem, ?_⟩
    rw [if_neg (by simp [h1]), if_neg ?hc]
    case hc =>
      simp only [Bool.or_eq_true, Bool.not_eq_true', decide_eq_true_eq, not_or, not_lt]
      constructor
      · simp [h2]
      · exact h3

lemma filterMap_ids_nodup (sel : String × IndexEntry → Option IndexEntry)
    (hsel : ∀ kv e, sel kv = some e → e = kv.2) :
    ∀ pm : PM, (pmKeys pm).Nodup → (∀ kv ∈ pm, kv.2.post.id = kv.1) →
      ((pm.filterMap sel).map (fun e => e.post.id)).Nodup
  | [], _, _ => by simp
  | kv :: rest, hnd, hco => by
    rw [List.filterMap_cons]
    simp only [pmKeys, List.map_cons, List.nodup_cons] at hnd
    cases hsk : sel kv with
    | none =>
      exact filterMap_ids_nodup sel hsel rest hnd.2
        (fun kv' h => hco kv' (List.mem_cons_of_mem _ h))
    | some e =>
      have he : e = kv.2 := hsel kv e hsk
      rw [List.map_cons, List.nodup_cons]
      refine ⟨?_, filterMap_ids_nodup sel hsel rest hnd.2
        (fun kv' h => hco kv' (List.mem_cons_of_mem _ h))⟩
      intro hin
      rcases List.mem_map.mp hin with ⟨e', he', hid⟩
      rcases List.mem_filterMap.mp he' with ⟨kv', hkv', hsel'⟩
      have he2 : e' = kv'.2 := hsel kv' e' hsel'
      have hco1 : kv.2.post.id = kv.1 := hco kv (List.mem_cons_self _ _)
      have hco2 : e'.post.id = kv'.1 := by
        rw [he2]
        exact hco kv' (List.mem_cons_of_mem _ hkv')
      apply hnd.1
      have : kv.1 = kv'.1 := by
        rw [← hco1, ← hco2, ← he, ← hid]
      rw [this]
      exact List.mem_map.mpr ⟨kv', hkv', rfl⟩

lemma needs_ids_nodup (fs : FS) (files : List String) :
    ((collectPostsNeedingSummary fs files).map (fun e => e.post.id)).Nodup := by
  unfold collectPostsNeedingSummary
  apply filterMap_ids_nodup
  · intro kv e h
    by_cases h1 : strTruthy kv.2.post.summary
    · rw [if_pos h1] at h
      cases h
    · rw [if_neg h1] at h
      by_cases h2 : (!(strTruthy kv.2.post.content)
          || decide ((kv.2.post.content.getD "").length < MIN_CONTENT_LENGTH)) = true
      · rw [if_pos h2] at h
        cases h
      · rw [if_neg h2] at h
        cases h
        rfl
  · exact (collectIndex_inv fs files).1
  · intro kv hkv
    obtain ⟨k, e⟩ := kv
    exact (collectIndex_mem_char fs files hkv).2.1

lemma stepEntry_fs (oracle : Post → Except GenError String) (st : PipeState)
    (e : IndexEntry) :
    (stepEntry oracle st e).fs
      = (match oracle e.post with
         | Except.ok t => (writeSummaryToFiles st.fs e.post.id t e.files).1
         | Except.error _ => st.fs) := by
  cases h : oracle e.post <;> simp [stepEntry, h]

lemma stepEntry_succ (oracle : Post → Except GenError String) (st : PipeState)
    (e : IndexEntry) :
    (stepEntry oracle st e).successCount
      = st.successCount + (if okB oracle e then 1 else 0) := by
  cases h : oracle e.post <;> simp [stepEntry, okB, h]

lemma stepEntry_fail (oracle : Post → Except GenError String) (st : PipeState)
    (e : IndexEntry) :
    (stepEntry oracle st e).failCount
      = st.failCount + (if okB oracle e then 0 else 1) := by
  cases h : oracle e.post <;> simp [stepEntry, okB, h]

lemma stepEntry_calls (oracle : Post → Except GenError String) (st : PipeState)
    (e : IndexEntry) :
    (stepEntry oracle st e).genCalls = st.genCalls ++ [e.post.id] := by
  cases h : oracle e.post <;> simp [stepEntry, h]

lemma stepEntry_delays (oracle : Post → Except GenError String) (st : PipeState)
    (e : IndexEntry) :
    (stepEntry oracle st e).delays = st.delays := by
  cases h : oracle e.post <;> simp [stepEntry, h]

lemma processBatch_fs (oracle : Post → Except GenError String) :
    ∀ (b : List IndexEntry) (st : PipeState),
      (processBatch oracle st b).fs = processAll oracle st.fs b
  | [], st => rfl
  | e :: rest, st => by
    rw [show processBatch oracle st (e :: rest)
        = processBatch oracle (stepEntry oracle st e) rest from rfl]
    rw [processBatch_fs oracle rest (stepEntry oracle st e)]
    unfold processAll
    rw [List.foldl_cons]
    rw [stepEntry_fs]

lemma processBatch_succ (oracle : Post → Except GenError String) :
    ∀ (b : List IndexEntry) (st : PipeState),
      (processBatch oracle st b).successCount
        = st.successCount + (b.filter (okB oracle)).length
  | [], st => by simp [processBatch]
  | e :: rest, st => by
    rw [show processBatch oracle st (e :: rest)
        = processBatch oracle (stepEntry oracle st e) rest from rfl]
    rw [processBatch_succ oracle rest (stepEntry oracle st e)]
    rw [stepEntry_succ, List.filter_cons]
    cases h : okB oracle e <;> simp [h, Nat.add_assoc, Nat.add_comm 1]

lemma processBatch_fail (oracle : Post → Except GenError String) :
    ∀ (b : List IndexEntry) (st : PipeState),
      (processBatch oracle st b).failCount
        = st.failCount + (b.filter (fun e => !(okB oracle e))).length
  | [], st => by simp [processBatch]
  | e :: rest, st => by
    rw [show processBatch oracle st (e :: rest)
        = processBatch oracle (stepEntry oracle st e) rest from rfl]
    rw [processBatch_fail oracle rest (stepEntry oracle st e)]
    rw [stepEntry_fail, List.filter_cons]
    cases h : okB oracle e <;> simp [h, Nat.add_assoc, Nat.add_comm 1]

lemma processBatch_calls (oracle : Post → Except GenError String) :
    ∀ (b : List IndexEntry) (st : PipeState),
      (processBatch oracle st b).genCalls
        = st.genCalls ++ b.map (fun e => e.post.id)
  | [], st => by simp [processBatch]
  | e :: rest, st => by
    rw [show processBatch oracle st (e :: rest)
        = processBatch oracle (stepEntry oracle st e) rest from rfl]
    rw [processBatch_calls oracle rest (stepEntry oracle st e)]
    rw [stepEntry_calls]
    simp

lemma processBatch_delays (oracle : Post → Except GenError String) :
    ∀ (b : List IndexEntry) (st : PipeState),
      (processBatch oracle st b).delays = st.delays
  | [], st => rfl
  | e :: rest, st => by
    rw [show processBatch oracle st (e :: rest)
        = processBatch oracle (stepEntry oracle st e) rest from rfl]
    rw [processBatch_delays oracle rest (stepEntry oracle st e)]
    exact stepEntry_delays oracle st e

lemma processAll_append (oracle : Post → Except GenError String) (fs : FS)
    (l1 l2 : List IndexEntry) :
    processAll oracle fs (l1 ++ l2) = processAll oracle (processAll oracle fs l1) l2 := by
  simp [processAll, List.foldl_append]

lemma runBatches_fs (oracle : Post → Except GenError String) :
    ∀ (bs : List (List IndexEntry)) (st : PipeState),
      (runBatches oracle st bs).fs = processAll oracle st.fs bs.flatten
  | [], st => by simp [runBatches, processAll]
  | b :: rest, st => by
    rw [show runBatches oracle st (b :: rest)
        = runBatches oracle
            (if rest.isEmpty then processBatch oracle st b
             else { processBatch oracle st b with
                    delays := (processBatch oracle st b).delays ++ [BATCH_DELAY_MS] })
            rest from rfl]
    rw [runBatches_fs oracle rest _]
    have hfs : (if rest.isEmpty then processBatch oracle st b
         else { processBatch oracle st b with
                delays := (processBatch oracle st b).delays ++ [BATCH_DELAY_MS] }).fs
        = (processBatch oracle st b).fs := by
      split <;> rfl
    rw [hfs, processBatch_fs]
    rw [show (b :: rest).flatten = b ++ rest.flatten from rfl, processAll_append]

lemma runBatches_succ (oracle : Post → Except GenError String) :
    ∀ (bs : List (List IndexEntry)) (st : PipeState),
      (runBatches oracle st bs).successCount
        = st.successCount + (bs.flatten.filter (okB oracle)).length
  | [], st => by simp [runBatches]
  | b :: rest, st => by
    rw [show runBatches oracle st (b :: rest)
        = runBatches oracle
            (if rest.isEmpty then processBatch oracle st b
             else { processBatch oracle st b with
                    delays := (processBatch oracle st b).delays ++ [BATCH_DELAY_MS] })
            rest from rfl]
    rw [runBatches_succ oracle rest _]
    have hsc : (if rest.isEmpty then processBatch oracle st b
         else { processBatch oracle st b with
                delays := (processBatch oracle st b).delays ++ [BATCH_DELAY_MS] }).successCount
        = (processBatch oracle st b).successCount := by
      split <;> rfl
    rw [hsc, processBatch_succ]
    rw [show (b :: rest).flatten = b ++ rest.flatten from rfl, List.filter_append,
      List.length_append]
    omega

lemma runBatches_fail (oracle : Post → Except GenError String) :
    ∀ (bs : List (List IndexEntry)) (st : PipeState),
      (runBatches oracle st bs).failCount
        = st.failCount + (bs.flatten.filter (fun e => !(okB oracle e))).length
  | [], st => by simp [runBatches]
  | b :: rest, st => by
    rw [show runBatches oracle st (b :: rest)
        = runBatches oracle
            (if rest.isEmpty then processBatch oracle st b
             else { processBatch oracle st b with
                    delays := (processBatch oracle st b).delays ++ [BATCH_DELAY_MS] })
            rest from rfl]
    rw [runBatches_fail oracle rest _]
    have hsc : (if rest.isEmpty then processBatch oracle st b
         else { processBatch oracle st b with
                delays := (processBatch oracle st b).delays ++ [BATCH_DELAY_MS] }).failCount
        = (processBatch oracle st b).failCount := by
      split <;> rfl
    rw [hsc, processBatch_fail]
    rw [show (b :: rest).flatten = b ++ rest.flatten from rfl, List.filter_append,
      List.length_append]
    omega

lemma runBatches_calls (oracle : Post → Except GenError String) :
    ∀ (bs : List (List IndexEntry)) (st : PipeState),
      (runBatches oracle st bs).genCalls
        = st.genCalls ++ bs.flatten.map (fun e => e.post.id)
  | [], st => by simp [runBatches]
  | b :: rest, st => by
    rw [show runBatches oracle st (b :: rest)
        = runBatches oracle
            (if rest.isEmpty then processBatch oracle st b
             else { processBatch oracle st b with
                    delays := (processBatch oracle st b).delays ++ [BATCH_DELAY_MS] })
            rest from rfl]
    rw [runBatches_calls oracle rest _]
    have hsc : (if rest.isEmpty then processBatch oracle st b
         else { processBatch oracle st b with
                delays := (processBatch oracle st b).delays ++ [BATCH_DELAY_MS] }).genCalls
        = (processBatch oracle st b).genCalls := by
      split <;> rfl
    rw [hsc, processBatch_calls]
    rw [show (b :: rest).flatten = b ++ rest.flatten from rfl, List.map_append,
      List.append_assoc]

lemma runBatches_delays (oracle : Post → Except GenError String) :
    ∀ (bs : List (List IndexEntry)) (st : PipeState),
      (runBatches oracle st bs).delays
        = st.delays ++ List.replicate (bs.length - 1) BATCH_DELAY_MS
  | [], st => by simp [runBatches]
  | b :: rest, st => by
    rw [show runBatches oracle st (b :: rest)
        = runBatches oracle
            (if rest.isEmpty then processBatch oracle st b
             else { processBatch oracle st b with
                    delays := (processBatch oracle st b).delays ++ [BATCH_DELAY_MS] })
            rest from rfl]
    rw [runBatches_delays oracle rest _]
    cases rest with
    | nil =>
      simp [processBatch_delays]
    | cons r rs =>
      have hsc : (if ((r :: rs) : List (List IndexEntry)).isEmpty then processBatch oracle st b
           else { processBatch oracle st b with
                  delays := (processBatch oracle st b).delays ++ [BATCH_DELAY_MS] }).delays
          = (processBatch oracle st b).delays ++ [BATCH_DELAY_MS] := by
        simp
      rw [hsc, processBatch_delays]
      simp [List.replicate_succ, List.append_assoc]

lemma chunk_flatten {α : Type} : ∀ (l : List α), (chunkBatches l).flatten = l
  | [] => rfl
  | [a] => by simp [chunkBatches]
  | [a, b] => by simp [chunkBatches]
  | a :: b :: c :: rest => by
    simp [chunkBatches, chunk_flatten rest]

lemma chunk_mem_size {α : Type} :
    ∀ (l : List α), ∀ b ∈ chunkBatches l, b ≠ [] ∧ b.length ≤ BATCH_SIZE
  | [], b, hb => by simp [chunkBatches] at hb
  | [a], b, hb => by
    simp [chunkBatches] at hb
    subst hb
    simp [BATCH_SIZE]
  | [a, a2], b, hb => by
    simp [chunkBatches] at hb
    subst hb
    simp [BATCH_SIZE]
  | a :: a2 :: c :: rest, b, hb => by
    rw [show chunkBatches (a :: a2 :: c :: rest)
        = [a, a2, c] :: chunkBatches rest from rfl] at hb
    rcases List.mem_cons.mp hb with hb | hb
    · subst hb
      simp [BATCH_SIZE]
    · exact chunk_mem_size rest b hb

lemma chunk_dropLast_size {α : Type} :
    ∀ (l : List α), ∀ b ∈ (chunkBatches l).dropLast, b.length = BATCH_SIZE
  | [], b, hb => by simp [chunkBatches] at hb
  | [a], b, hb => by simp [chunkBatches] at hb
  | [a, a2], b, hb => by simp [chunkBatches] at hb
  | a :: a2 :: c :: rest, b, hb => by
    rw [show chunkBatches (a :: a2 :: c :: rest)
        = [a, a2, c] :: chunkBatches rest from rfl] at hb
    cases hcr : chunkBatches rest with
    | nil =>
      rw [hcr] at hb
      simp at hb
    | cons y ys =>
      rw [hcr, List.dropLast_cons₂] at hb
      rcases List.mem_cons.mp hb with hb | hb
      · subst hb
        simp [BATCH_SIZE]
      · have := chunk_dropLast_size rest b
        rw [hcr] at this
        exact this hb

lemma processAll_filter (oracle : Post → Except GenError String) :
    ∀ (l : List IndexEntry) (fs : FS),
      processAll oracle fs l = processAll oracle fs (l.filter (okB oracle))
  | [], fs => rfl
  | e :: rest, fs => by
    rw [List.filter_cons]
    cases h : oracle e.post with
    | ok t =>
      have hok : okB oracle e = true := by simp [okB, h]
      rw [hok, if_pos rfl]
      rw [show processAll oracle fs (e :: rest)
          = processAll oracle ((writeSummaryToFiles fs e.post.id t e.files).1) rest by
        simp [processAll, h]]
      rw [show processAll oracle fs (e :: List.filter (okB oracle) rest)
          = processAll oracle ((writeSummaryToFiles fs e.post.id t e.files).1)
              (List.filter (okB oracle) rest) by
        simp [processAll, h]]
      exact processAll_filter oracle rest _
    | error err =>
      have hok : okB oracle e = false := by simp [okB, h]
      rw [hok]
      rw [show processAll oracle fs (e :: rest) = processAll oracle fs rest by
        simp [processAll, h]]
      simp only [Bool.false_eq_true, if_false]
      exact processAll_filter oracle rest fs

lemma filter_length_partition {α : Type} (p : α → Bool) :
    ∀ (l : List α), (l.filter p).length + (l.filter (fun x => !(p x))).length = l.length
  | [] => rfl
  | a :: rest => by
    have ih := filter_length_partition p rest
    rw [List.filter_cons, List.filter_cons]
    cases h : p a <;> simp [h] <;> omega

lemma runPipeline_of_empty (oracle : Post → Except GenError String) (fs : FS)
    (files : List String) (h : collectPostsNeedingSummary fs files = []) :
    runPipeline oracle fs files = (initState fs, 0) := by
  unfold runPipeline
  rw [if_pos (by simp [h])]

lemma runPipeline_state (oracle : Post → Except GenError String) (fs : FS)
    (files : List String) (h : collectPostsNeedingSummary fs files ≠ []) :
    (runPipeline oracle fs files).1
      = runBatches oracle (initState fs)
          (chunkBatches (collectPostsNeedingSummary fs files)) := by
  unfold runPipeline
  rw [if_neg (by simp [List.isEmpty_iff, h])]

lemma runPipeline_exit (oracle : Post → Except GenError String) (fs : FS)
    (files : List String) (h : collectPostsNeedingSummary fs files ≠ []) :
    (runPipeline oracle fs files).2
      = (if (runBatches oracle (initState fs)
               (chunkBatches (collectPostsNeedingSummary fs files))).successCount = 0
            ∧ 0 < (runBatches oracle (initState fs)
               (chunkBatches (collectPostsNeedingSummary fs files))).failCount
         then 1 else 0) := by
  unfold runPipeline
  rw [if_neg (by simp [List.isEmpty_iff, h])]

/-- C6: every task of every batch settles and is observed independently:
the run's success and failure counts are exactly the counts of entries
whose generation call succeeded resp. failed, the final store is the one
obtained by applying the write-back of every successful entry (failures
are equivalent to the entry never having been attempted — they never
block a sibling's write-back), and the run exits with the hard-failure
code 1 exactly when the aggregate success count is zero and at least one
post was attempted; otherwise it exits 0 even with partial failures. -/
theorem failure_isolation_spec (oracle : Post → Except GenError String)
    (fs : FS) (files : List String) :
    (runPipeline oracle fs files).1.successCount
        = ((collectPostsNeedingSummary fs files).filter (okB oracle)).length ∧
    (runPipeline oracle fs files).1.failCount
        = ((collectPostsNeedingSummary fs files).filter
            (fun e => !(okB oracle e))).length ∧
    (runPipeline oracle fs files).1.fs
        = processAll oracle fs
            ((collectPostsNeedingSummary fs files).filter (okB oracle)) ∧
    ((runPipeline oracle fs files).2 = 1 ↔
      ((collectPostsNeedingSummary fs files).filter (okB oracle)).length = 0
        ∧ collectPostsNeedingSummary fs files ≠ []) := by
  by_cases h : collectPostsNeedingSummary fs files = []
  · rw [runPipeline_of_empty oracle fs files h, h]
    simp [initState, processAll]
  · have hstate := runPipeline_state oracle fs files h
    have hsucc : (runPipeline oracle fs files).1.successCount
        = ((collectPostsNeedingSummary fs files).filter (okB oracle)).length := by
      rw [hstate, runBatches_succ, chunk_flatten]
      simp [initState]
    have hfail : (runPipeline oracle fs files).1.failCount
        = ((collectPostsNeedingSummary fs files).filter
            (fun e => !(okB oracle e))).length := by
      rw [hstate, runBatches_fail, chunk_flatten]
      simp [initState]
    have hfs : (runPipeline oracle fs files).1.fs
        = processAll oracle fs
            ((collectPostsNeedingSummary fs files).filter (okB oracle)) := by
      rw [hstate, runBatches_fs, chunk_flatten]
      rw [show (initState fs).fs = fs from rfl]
      exact processAll_filter oracle _ fs
    refine ⟨hsucc, hfail, hfs, ?_⟩
    rw [runPipeline_exit oracle fs files h]
    rw [← hstate, hsucc, hfail]
    have hpart := filter_length_partition (okB oracle)
      (collectPostsNeedingSummary fs files)
    by_cases hcond : ((collectPostsNeedingSummary fs files).filter (okB oracle)).length = 0
        ∧ 0 < ((collectPostsNeedingSummary fs files).filter
            (fun e => !(okB oracle e))).length
    · rw [if_pos hcond]
      simp [hcond.1, h]
    · rw [if_neg hcond]
      constructor
      · intro h0
        cases h0
      · rintro ⟨hz, hne⟩
        exfalso
        apply hcond
        refine ⟨hz, ?_⟩
        have hlen : 0 < (collectPostsNeedingSummary fs files).length :=
          List.length_pos.mpr hne
        omega

/-- C8: the orchestrator partitions the eligible entries into consecutive
batches of size `BATCH_SIZE = 3` preserving discovery order (every batch
non-empty, every batch but the last of size exactly 3), processes them
strictly sequentially, and pauses `BATCH_DELAY_MS = 1000` exactly once
between consecutive batches — never after the final batch. -/
theorem batch_orchestration_spec (oracle : Post → Except GenError String)
    (fs : FS) (files : List String) :
    (chunkBatches (collectPostsNeedingSummary fs files)).flatten
        = collectPostsNeedingSummary fs files ∧
    (∀ b ∈ chunkBatches (collectPostsNeedingSummary fs files),
        b ≠ [] ∧ b.length ≤ BATCH_SIZE) ∧
    (∀ b ∈ (chunkBatches (collectPostsNeedingSummary fs files)).dropLast,
        b.length = BATCH_SIZE) ∧
    (runPipeline oracle fs files).1.delays
        = List.replicate
            ((chunkBatches (collectPostsNeedingSummary fs files)).length - 1)
            BATCH_DELAY_MS := by
  refine ⟨chunk_flatten _, chunk_mem_size _, chunk_dropLast_size _, ?_⟩
  by_cases h : collectPostsNeedingSummary fs files = []
  · rw [runPipeline_of_empty oracle fs files h, h]
    simp [initState, chunkBatches]
  · rw [runPipeline_state oracle fs files h, runBatches_delays]
    simp [initState]

/-- C7: the eligibility filter selects an indexed entry if and only if its
representative post has no truthy summary payload, has truthy content, and
the content's length is at least `MIN_CONTENT_LENGTH = 50`; in particular
a post with shorter content is never selected even without a summary. -/
theorem eligibility_spec (fs : FS) (files : List String) (e : IndexEntry) :
    e ∈ collectPostsNeedingSummary fs files ↔
      (∃ id, (id, e) ∈ collectIndex fs files) ∧
      strTruthy e.post.summary = false ∧
      strTruthy e.post.content = true ∧
      MIN_CONTENT_LENGTH ≤ (e.post.content.getD "").length :=
  mem_collectNeeds fs files e

/-- C1: the post index has pairwise-distinct, non-empty keys; each entry's
representative is the first occurrence of its id along document order,
then bucket order hot→top→new, then sequence order; each entry's file set
is exactly the store's documents containing that id; and one pipeline run
issues at most one generation call per distinct post id (the attempted id
list has no duplicates). Posts lacking an id are never indexed. -/
theorem postIndex_spec (fs : FS) (files : List String) (hnd : files.Nodup) :
    (pmKeys (collectIndex fs files)).Nodup ∧
    (∀ id e, (id, e) ∈ collectIndex fs files →
      id ≠ "" ∧ e.post.id = id ∧
      (postsSeq fs files).find? (fun p => decide (p.id = id)) = some e.post ∧
      e.files = files.filter (fun f => fileHasPost fs f id)) ∧
    ((collectPostsNeedingSummary fs files).map (fun e => e.post.id)).Nodup ∧
    (∀ oracle, (runPipeline oracle fs files).1.genCalls.Nodup) := by
  refine ⟨(collectIndex_inv fs files).1, ?_, needs_ids_nodup fs files, ?_⟩
  · intro id e h
    obtain ⟨h1, h2, h3, h4⟩ := collectIndex_mem_char fs files h
    exact ⟨h1, h2, h3, by rw [h4, setfold_filesOfId fs files id hnd]⟩
  · intro oracle
    by_cases h : collectPostsNeedingSummary fs files = []
    · rw [runPipeline_of_empty oracle fs files h]
      simp [initState]
    · rw [runPipeline_state oracle fs files h, runBatches_calls, chunk_flatten]
      simp only [initState, List.nil_append]
      exact needs_ids_nodup fs files

/-- Witness for `postIndex_spec` at the concrete two-document store. -/
theorem postIndex_spec_witness :
    exFiles.Nodup ∧
    ((pmKeys (collectIndex exFS exFiles)).Nodup ∧
     (∀ id e, (id, e) ∈ collectIndex exFS exFiles →
       id ≠ "" ∧ e.post.id = id ∧
       (postsSeq exFS exFiles).find? (fun p => decide (p.id = id)) = some e.post ∧
       e.files = exFiles.filter (fun f => fileHasPost exFS f id)) ∧
     ((collectPostsNeedingSummary exFS exFiles).map (fun e => e.post.id)).Nodup ∧
     (∀ oracle, (runPipeline oracle exFS exFiles).1.genCalls.Nodup)) :=
  ⟨by decide, postIndex_spec exFS exFiles (by decide)⟩

lemma load_save (fs : FS) (p : String) (d : SnapshotDoc) (q : String) :
    loadJsonFile (saveJsonFile fs p d) q
      = if q = p then some d else loadJsonFile fs q := by
  induction fs with
  | nil =>
    simp only [saveJsonFile, loadJsonFile]
    by_cases h : q = p
    · subst h
      simp
    · rw [if_neg (fun hh => h hh.symm), if_neg h]
  | cons pd rest ih =>
    obtain ⟨p0, d0⟩ := pd
    simp only [saveJsonFile]
    by_cases h0 : p0 = p
    · rw [if_pos h0]
      simp only [loadJsonFile]
      by_cases hq : q = p
      · rw [if_pos (hq.symm), if_pos hq]
      · rw [if_neg (fun hh => hq hh.symm), if_neg hq, if_neg (h0 ▸ fun hh => hq hh.symm)]
    · rw [if_neg h0]
      simp only [loadJsonFile]
      by_cases hq : p0 = q
      · have hqp : ¬ (q = p) := fun hh => h0 (hq.trans hh)
        rw [if_pos hq, if_neg hqp, if_pos hq]
      · rw [if_neg hq, if_neg hq, ih]

lemma map_id_of {α : Type} (l : List α) (f : α → α) (h : ∀ x ∈ l, f x = x) :
    l.map f = l := by
  induction l with
  | nil => rfl
  | cons a rest ih =>
    rw [List.map_cons, h a (List.mem_cons_self _ _),
      ih (fun x hx => h x (List.mem_cons_of_mem _ hx))]

lemma updateBucket_snd (parsed : ParsedContent) (content postId : String)
    (b : Option (List Post)) :
    (updateBucket parsed content postId b).2
      = (b.getD []).any (fun p => decide (p.id = postId)) := by
  cases b <;> simp [updateBucket]

lemma updateBucket_fst_getD (parsed : ParsedContent) (content postId : String)
    (b : Option (List Post)) :
    ((updateBucket parsed content postId b).1).getD []
      = (b.getD []).map (postApply parsed content postId) := by
  cases b <;> simp [updateBucket, postApply]

lemma updateBucket_id (parsed : ParsedContent) (content postId : String)
    (b : Option (List Post))
    (h : (updateBucket parsed content postId b).2 = false) :
    (updateBucket parsed content postId b).1 = b := by
  cases b with
  | none => rfl
  | some ps =>
    simp only [updateBucket] at h ⊢
    congr 1
    apply map_id_of
    intro p hp
    have hne : ¬ (p.id = postId) := by
      intro he
      rw [List.any_eq_false] at h
      exact h p hp (by simp [he])
    rw [if_neg hne]

lemma applyToDoc_snd (parsed : ParsedContent) (content postId : String)
    (d : SnapshotDoc) :
    (applyToDoc parsed content postId d).2
      = (postsOfDoc d).any (fun p => decide (p.id = postId)) := by
  cases hd : d.feeds with
  | none => simp [applyToDoc, postsOfDoc, hd]
  | some fd =>
    simp only [applyToDoc, postsOfDoc, hd, postsOfFeeds]
    rw [updateBucket_snd, updateBucket_snd, updateBucket_snd]
    simp [List.any_append, Bool.or_assoc]

lemma applyToDoc_id (parsed : ParsedContent) (content postId : String)
    (d : SnapshotDoc) (h : (applyToDoc parsed content postId d).2 = false) :
    (applyToDoc parsed content postId d).1 = d := by
  cases hd : d.feeds with
  | none => simp [applyToDoc, hd]
  | some fd =>
    simp only [applyToDoc, hd] at h ⊢
    simp only [Bool.or_eq_false_iff] at h
    obtain ⟨⟨hh, ht⟩, hn⟩ := h
    rw [updateBucket_id _ _ _ _ hh, updateBucket_id _ _ _ _ ht,
      updateBucket_id _ _ _ _ hn]
    cases d with
    | mk feeds =>
      simp at hd
      rw [hd]

lemma applyToDoc_posts (parsed : ParsedContent) (content postId : String)
    (d : SnapshotDoc) :
    postsOfDoc (applyToDoc parsed content postId d).1
      = (postsOfDoc d).map (postApply parsed content postId) := by
  cases hd : d.feeds with
  | none => simp [applyToDoc, postsOfDoc, hd]
  | some fd =>
    simp only [applyToDoc, postsOfDoc, hd, postsOfFeeds]
    rw [List.map_append, List.map_append]
    rw [← updateBucket_fst_getD, ← updateBucket_fst_getD, ← updateBucket_fst_getD]

lemma postsOf_load (fs : FS) (f : String) :
    postsOf fs f = (match loadJsonFile fs f with
      | none => []
      | some d => postsOfDoc d) := by
  unfold postsOf docFeeds postsOfDoc
  cases loadJsonFile fs f <;> rfl

lemma wbChanged_eq_fileHasPost (parsed : ParsedContent) (content postId : String)
    (fs : FS) (f : String) :
    wbChanged parsed content postId fs f = fileHasPost fs f postId := by
  unfold wbChanged fileHasPost
  rw [postsOf_load]
  cases loadJsonFile fs f with
  | none => rfl
  | some d => exact applyToDoc_snd parsed content postId d

lemma wbChanged_congr (parsed : ParsedContent) (content postId : String)
    {fs1 fs2 : FS} {q : String}
    (h : loadJsonFile fs1 q = loadJsonFile fs2 q) :
    wbChanged parsed content postId fs1 q = wbChanged parsed content postId fs2 q := by
  unfold wbChanged
  rw [h]

/-- Pointwise characterisation of the write-back fold over a duplicate-free
file set: every listed file's document is mapped through the per-document
transform, every other path is untouched, and the saved paths are exactly
the listed files whose document the transform marks changed. -/
lemma wb_fold (parsed : ParsedContent) (content postId : String) :
    ∀ (files : List String) (fs : FS) (saved : List String), files.Nodup →
      (∀ q, loadJsonFile
          (List.foldl (wbStep parsed content postId) (fs, saved) files).1 q
        = if q ∈ files
          then (loadJsonFile fs q).map
            (fun d => (applyToDoc parsed content postId d).1)
          else loadJsonFile fs q) ∧
      (List.foldl (wbStep parsed content postId) (fs, saved) files).2
        = saved ++ files.filter (wbChanged parsed content postId fs)
  | [], fs, saved, _ => by simp
  | f :: rest, fs, saved, hnd => by
    simp only [List.nodup_cons] at hnd
    simp only [List.foldl_cons]
    cases hl : loadJsonFile fs f with
    | none =>
      have hstep : wbStep parsed content postId (fs, saved) f = (fs, saved) := by
        simp [wbStep, hl]
      rw [hstep]
      have ih := wb_fold parsed content postId rest fs saved hnd.2
      have hch : wbChanged parsed content postId fs f = false := by
        simp [wbChanged, hl]
      constructor
      · intro q
        rw [ih.1 q]
        by_cases hq : q ∈ rest
        · rw [if_pos hq, if_pos (List.mem_cons_of_mem _ hq)]
        · rw [if_neg hq]
          by_cases hqf : q = f
          · subst hqf
            rw [if_pos (List.mem_cons_self _ _), hl]
            rfl
          · rw [if_neg (by simp [hqf, hq])]
      · rw [ih.2, List.filter_cons, hch]
        simp
    | some d =>
      cases hc : (applyToDoc parsed content postId d).2 with
      | false =>
        have hstep : wbStep parsed content postId (fs, saved) f = (fs, saved) := by
          simp [wbStep, hl, hc]
        rw [hstep]
        have ih := wb_fold parsed content postId rest fs saved hnd.2
        have hch : wbChanged parsed content postId fs f = false := by
          simp [wbChanged, hl, hc]
        constructor
        · intro q
          rw [ih.1 q]
          by_cases hq : q ∈ rest
          · rw [if_pos hq, if_pos (List.mem_cons_of_mem _ hq)]
          · rw [if_neg hq]
            by_cases hqf : q = f
            · subst hqf
              rw [if_pos (List.mem_cons_self _ _), hl]
              rw [Option.map_some']
              rw [applyToDoc_id parsed content postId d hc]
            · rw [if_neg (by simp [hqf, hq])]
        · rw [ih.2, List.filter_cons, hch]
          simp
      | true =>
        have hstep : wbStep parsed content postId (fs, saved) f
            = (saveJsonFile fs f (applyToDoc parsed content postId d).1,
               saved ++ [f]) := by
          simp [wbStep, hl, hc]
        rw [hstep]
        have ih := wb_fold parsed content postId rest
          (saveJsonFile fs f (applyToDoc parsed content postId d).1)
          (saved ++ [f]) hnd.2
        have hch : wbChanged parsed content postId fs f = true := by
          simp [wbChanged, hl, hc]
        have hload1 : ∀ q, q ≠ f →
            loadJsonFile (saveJsonFile fs f (applyToDoc parsed content postId d).1) q
              = loadJsonFile fs q := by
          intro q hq
          rw [load_save, if_neg hq]
        constructor
        · intro q
          rw [ih.1 q]
          by_cases hq : q ∈ rest
          · have hqf : q ≠ f := fun hh => hnd.1 (hh ▸ hq)
            rw [if_pos hq, if_pos (List.mem_cons_of_mem _ hq), hload1 q hqf]
          · rw [if_neg hq]
            by_cases hqf : q = f
            · subst hqf
              rw [if_pos (List.mem_cons_self _ _), load_save, if_pos rfl, hl]
              rfl
            · rw [if_neg (by simp [hqf, hq]), hload1 q hqf]
        · rw [ih.2, List.filter_cons, hch]
          rw [List.filter_congr (fun q hq =>
            wbChanged_congr parsed content postId
              (hload1 q (fun hh => hnd.1 (hh ▸ hq))))]
          simp

/-- Models `writeSummaryToFiles` over a duplicate-free file set: load view of the
result and the saved path list. -/
lemma writeSummary_spec (fs : FS) (postId content : String)
    (files : List String) (hnd : files.Nodup) :
    (∀ q, loadJsonFile (writeSummaryToFiles fs postId content files).1 q
      = if q ∈ files
        then (loadJsonFile fs q).map
          (fun d => (applyToDoc (parseBilingualContent content) content postId d).1)
        else loadJsonFile fs q) ∧
    (writeSummaryToFiles fs postId content files).2
      = files.filter (fun f => fileHasPost fs f postId) := by
  have h := wb_fold (parseBilingualContent content) content postId files fs [] hnd
  refine ⟨h.1, ?_⟩
  rw [show writeSummaryToFiles fs postId content files
      = List.foldl (wbStep (parseBilingualContent content) content postId)
          (fs, []) files from rfl]
  rw [h.2, List.nil_append]
  exact List.filter_congr (fun q _ =>
    wbChanged_eq_fileHasPost (parseBilingualContent content) content postId fs q)

/-- C5: a write-back for an indexed post id persists exactly the store
documents containing that id — every saved path is one of the store's
files containing the id (a document is saved only when a contained post
matched and was changed), and every path outside the saved set, in
particular every document without the id, is left byte-for-byte
untouched. -/
theorem writeback_frame_spec (fs : FS) (files : List String) (hnd : files.Nodup)
    (id : String) (e : IndexEntry) (hmem : (id, e) ∈ collectIndex fs files)
    (content : String) :
    (writeSummaryToFiles fs id content e.files).2
        = files.filter (fun f => fileHasPost fs f id) ∧
    ∀ q, q ∉ (writeSummaryToFiles fs id content e.files).2 →
      loadJsonFile (writeSummaryToFiles fs id content e.files).1 q
        = loadJsonFile fs q := by
  have hchar := collectIndex_mem_char fs files hmem
  have hfiles : e.files = files.filter (fun f => fileHasPost fs f id) := by
    rw [hchar.2.2.2, setfold_filesOfId fs files id hnd]
  have hnd2 : e.files.Nodup := by
    rw [hfiles]
    exact hnd.filter _
  have hspec := writeSummary_spec fs id content e.files hnd2
  have hsaved : (writeSummaryToFiles fs id content e.files).2
      = files.filter (fun f => fileHasPost fs f id) := by
    rw [hspec.2, hfiles, List.filter_filter]
    apply List.filter_congr
    intro f _
    simp
  refine ⟨hsaved, ?_⟩
  intro q hq
  rw [hspec.1 q, if_neg ?_]
  intro hqin
  apply hq
  rw [hsaved, ← hfiles]
  exact hqin

/-- Witness for `writeback_frame_spec` at the concrete two-document
store. -/
theorem writeback_frame_spec_witness :
    exFiles.Nodup ∧
    (("abc", (⟨exPost, ["latest.json", "archive.json"]⟩ : IndexEntry))
        ∈ collectIndex exFS exFiles) ∧
    ((writeSummaryToFiles exFS "abc" "zh\n---\nen"
        (["latest.json", "archive.json"])).2
      = exFiles.filter (fun f => fileHasPost exFS f "abc") ∧
     ∀ q, q ∉ (writeSummaryToFiles exFS "abc" "zh\n---\nen"
        (["latest.json", "archive.json"])).2 →
       loadJsonFile (writeSummaryToFiles exFS "abc" "zh\n---\nen"
          (["latest.json", "archive.json"])).1 q
         = loadJsonFile exFS q) :=
  ⟨by decide, by decide,
   writeback_frame_spec exFS exFiles (by decide) "abc"
     ⟨exPost, ["latest.json", "archive.json"]⟩ (by decide) "zh\n---\nen"⟩

/-- C4 counterexample: for the four-part response `cxContent` the parser
produces the Chinese-title field (`titleZh = some ""`), yet after
write-back the matching bucket entry's `title_zh` is still unset (the code
only stores truthy titles), so "sets the Chinese and English title fields
exactly when the parser produced them" fails; the English title, produced
non-empty, is stored. -/
theorem writeback_title_cx :
    (parseBilingualContent cxContent).titleZh = some "" ∧
    (parseBilingualContent cxContent).titleZh.isSome = true ∧
    loadJsonFile (writeSummaryToFiles cxFS "x" cxContent ["f"]).1 "f"
      = some ⟨some ⟨some [⟨"x", "t", some "c", some "zh\n---\nen",
          none, some "et"⟩], none, none⟩⟩ ∧
    (match loadJsonFile (writeSummaryToFiles cxFS "x" cxContent ["f"]).1 "f" with
     | some d => (postsOfDoc d).map (fun p => p.title_zh)
     | none => []) = [none] := by
  decide

/-- C4 (amended): write-back maps each targeted document through the
per-document transform, which rewrites every bucket entry whose id
matches and only those: the matching post's combined summary becomes the
Chinese summary, separator, and English summary joined when both parsed
summaries are truthy (present and non-empty), and the raw unparsed
response text otherwise; the Chinese/English title fields are set exactly
when the parser produced them non-empty, and are left unchanged
otherwise. -/
theorem writeback_sets_fields (fs : FS) (postId content : String)
    (files : List String) (hnd : files.Nodup) :
    ∀ f ∈ files, ∀ d, loadJsonFile fs f = some d →
      loadJsonFile (writeSummaryToFiles fs postId content files).1 f
        = some (applyToDoc (parseBilingualContent content) content postId d).1 ∧
      postsOfDoc (applyToDoc (parseBilingualContent content) content postId d).1
        = (postsOfDoc d).map (fun p =>
            if p.id = postId then
              { p with
                summary :=
                  if strTruthy (parseBilingualContent content).summaryZh
                      && strTruthy (parseBilingualContent content).summaryEn then
                    some ((parseBilingualContent content).summaryZh.getD ""
                      ++ SEP ++ (parseBilingualContent content).summaryEn.getD "")
                  else some content
                title_zh := if strTruthy (parseBilingualContent content).titleZh
                  then (parseBilingualContent content).titleZh else p.title_zh
                title_en := if strTruthy (parseBilingualContent content).titleEn
                  then (parseBilingualContent content).titleEn else p.title_en }
            else p) := by
  intro f hf d hd
  constructor
  · rw [(writeSummary_spec fs postId content files hnd).1 f, if_pos hf, hd]
    rfl
  · rw [applyToDoc_posts]
    apply List.map_congr_left
    intro p _
    unfold postApply applyToPost
    rfl

/-- Witness for `writeback_sets_fields` at the concrete one-document
store and the four-part response. -/
theorem writeback_sets_fields_witness :
    (["f"] : List String).Nodup ∧ "f" ∈ (["f"] : List String) ∧
    loadJsonFile cxFS "f" = some ⟨some ⟨some [cxPost], none, none⟩⟩ ∧
    (loadJsonFile (writeSummaryToFiles cxFS "x" cxContent ["f"]).1 "f"
        = some (applyToDoc (parseBilingualContent cxContent) cxContent "x"
            ⟨some ⟨some [cxPost], none, none⟩⟩).1 ∧
     postsOfDoc (applyToDoc (parseBilingualContent cxContent) cxContent "x"
            ⟨some ⟨some [cxPost], none, none⟩⟩).1
        = (postsOfDoc (⟨some ⟨some [cxPost], none, none⟩⟩ : SnapshotDoc)).map
            (fun p =>
              if p.id = "x" then
                { p with
                  summary :=
                    if strTruthy (parseBilingualContent cxContent).summaryZh
                        && strTruthy (parseBilingualContent cxContent).summaryEn then
                      some ((parseBilingualContent cxContent).summaryZh.getD ""
                        ++ SEP ++ (parseBilingualContent cxContent).summaryEn.getD "")
                    else some cxContent
                  title_zh := if strTruthy (parseBilingualContent cxContent).titleZh
                    then (parseBilingualContent cxContent).titleZh else p.title_zh
                  title_en := if strTruthy (parseBilingualContent cxContent).titleEn
                    then (parseBilingualContent cxContent).titleEn else p.title_en }
              else p)) :=
  ⟨by decide, by decide, by decide,
   writeback_sets_fields cxFS "x" cxContent ["f"] (by decide) "f" (by decide)
     ⟨some ⟨some [cxPost], none, none⟩⟩ (by decide)⟩

lemma applyToPost_id (parsed : ParsedContent) (content : String) (p : Post) :
    (applyToPost parsed content p).id = p.id := rfl

lemma postApply_id (parsed : ParsedContent) (content postId : String) (p : Post) :
    (postApply parsed content postId p).id = p.id := by
  unfold postApply
  split <;> rfl

lemma transformPost_id (oracle : Post → Except GenError String)
    (entries : List IndexEntry) (p : Post) :
    (transformPost oracle entries p).id = p.id := by
  unfold transformPost
  cases sigmaOf oracle entries p.id <;> rfl

lemma transformPost_nil (oracle : Post → Except GenError String) (p : Post) :
    transformPost oracle [] p = p := by
  simp [transformPost, sigmaOf]

lemma sigmaOf_cons (oracle : Post → Except GenError String) (e : IndexEntry)
    (rest : List IndexEntry) (id : String) :
    sigmaOf oracle (e :: rest) id
      = if e.post.id = id
        then (match oracle e.post with
              | Except.ok t => some t
              | Except.error _ => none)
        else sigmaOf oracle rest id := by
  unfold sigmaOf
  by_cases h : e.post.id = id
  · rw [List.find?_cons_of_pos _ (by simp [h]), if_pos h]
  · rw [List.find?_cons_of_neg _ (by simp [h]), if_neg h]

lemma transformPost_cons_error (oracle : Post → Except GenError String)
    (e : IndexEntry) (rest : List IndexEntry) (ho : (oracle e.post).isOk = false)
    (hnd : e.post.id ∉ rest.map (fun e' => e'.post.id)) (p : Post) :
    transformPost oracle (e :: rest) p = transformPost oracle rest p := by
  unfold transformPost
  rw [sigmaOf_cons]
  by_cases h : e.post.id = p.id
  · rw [if_pos h]
    have hrest : sigmaOf oracle rest p.id = none := by
      unfold sigmaOf
      rw [List.find?_eq_none.mpr ?hn]
      case hn =>
        intro e' he'
        simp only [decide_eq_true_eq]
        intro hee
        rw [← h] at hee
        exact hnd (List.mem_map.mpr ⟨e', he', hee⟩)
    rw [hrest]
    cases hoo : oracle e.post with
    | ok t => rw [hoo] at ho; cases ho
    | error err => rfl
  · rw [if_neg h]

lemma transformPost_cons_ok (oracle : Post → Except GenError String)
    (e : IndexEntry) (rest : List IndexEntry) (t : String)
    (ho : oracle e.post = Except.ok t)
    (hnd : e.post.id ∉ rest.map (fun e' => e'.post.id)) (p : Post) :
    transformPost oracle (e :: rest) p
      = transformPost oracle rest
          (postApply (parseBilingualContent t) t e.post.id p) := by
  by_cases h : p.id = e.post.id
  · have happ : postApply (parseBilingualContent t) t e.post.id p
        = applyToPost (parseBilingualContent t) t p := by
      unfold postApply
      rw [if_pos h]
    rw [happ]
    unfold transformPost
    rw [sigmaOf_cons, if_pos h.symm, ho]
    have hid : (applyToPost (parseBilingualContent t) t p).id = p.id := rfl
    have hrest : sigmaOf oracle rest
        (applyToPost (parseBilingualContent t) t p).id = none := by
      rw [hid, h]
      unfold sigmaOf
      rw [List.find?_eq_none.mpr ?hn]
      case hn =>
        intro e' he'
        simp only [decide_eq_true_eq]
        intro hee
        exact hnd (List.mem_map.mpr ⟨e', he', hee⟩)
    rw [hrest]
  · have happ : postApply (parseBilingualContent t) t e.post.id p = p := by
      unfold postApply
      rw [if_neg h]
    rw [happ]
    unfold transformPost
    rw [sigmaOf_cons, if_neg (fun hh => h hh.symm)]

lemma any_id_map (l : List Post) (g : Post → Post)
    (hg : ∀ p, (g p).id = p.id) (id : String) :
    (l.map g).any (fun p => decide (p.id = id))
      = l.any (fun p => decide (p.id = id)) := by
  rw [List.any_map]
  congr 1
  funext p
  simp [Function.comp, hg]

lemma postsSeq_map (g : Post → Post) (fs1 fs2 : FS) (files : List String)
    (h : ∀ f ∈ files, postsOf fs1 f = (postsOf fs2 f).map g) :
    postsSeq fs1 files = (postsSeq fs2 files).map g := by
  unfold postsSeq
  induction files with
  | nil => rfl
  | cons f rest ih =>
    simp only [List.flatMap_cons, List.map_append]
    rw [h f (List.mem_cons_self _ _),
      ih (fun x hx => h x (List.mem_cons_of_mem _ hx))]

lemma fileHasPost_of_map (fs1 fs2 : FS) (f : String) (g : Post → Post)
    (hg : ∀ p, (g p).id = p.id)
    (h : postsOf fs1 f = (postsOf fs2 f).map g) (id : String) :
    fileHasPost fs1 f id = fileHasPost fs2 f id := by
  unfold fileHasPost
  rw [h]
  exact any_id_map _ g hg id

lemma combined_ne_empty (a b : String) : a ++ SEP ++ b ≠ "" := by
  intro h
  have hd : (a ++ SEP ++ b).data = ("" : String).data := congrArg String.data h
  rw [String.data_append, String.data_append] at hd
  simp [SEP] at hd

lemma writeSummary_postsOf (fs : FS) (files : List String) (hndf : files.Nodup)
    (e : IndexEntry) (t : String)
    (hex : e.files = files.filter (fun f => fileHasPost fs f e.post.id)) :
    ∀ g ∈ files,
      postsOf (writeSummaryToFiles fs e.post.id t e.files).1 g
        = (postsOf fs g).map (postApply (parseBilingualContent t) t e.post.id) := by
  intro g hg
  have hnd2 : e.files.Nodup := by
    rw [hex]
    exact hndf.filter _
  have hspec := (writeSummary_spec fs e.post.id t e.files hnd2).1 g
  by_cases hgf : g ∈ e.files
  · rw [postsOf_load, hspec, if_pos hgf]
    cases hl : loadJsonFile fs g with
    | none =>
      rw [postsOf_load, hl]
      rfl
    | some d =>
      rw [postsOf_load, hl]
      simp only [Option.map_some']
      exact applyToDoc_posts _ _ _ d
  · have hnp : fileHasPost fs g e.post.id = false := by
      cases hfc : fileHasPost fs g e.post.id with
      | false => rfl
      | true =>
        exfalso
        apply hgf
        rw [hex]
        exact List.mem_filter.mpr ⟨hg, hfc⟩
    rw [postsOf_load, hspec, if_neg hgf, ← postsOf_load]
    symm
    apply map_id_of
    intro p hp
    have hpid : ¬ (p.id = e.post.id) := by
      intro hh
      unfold fileHasPost at hnp
      rw [List.any_eq_false] at hnp
      exact hnp p hp (by simp [hh])
    unfold postApply
    rw [if_neg hpid]

/-- Pointwise effect of one run's processing on every listed document: each
post is mapped through `transformPost` for the processed entries. -/
lemma processAll_postsOf (oracle : Post → Except GenError String)
    (files : List String) (hndf : files.Nodup) :
    ∀ (entries : List IndexEntry) (fs : FS),
      ((entries.map (fun e => e.post.id)).Nodup) →
      (∀ e ∈ entries, e.files = files.filter (fun f => fileHasPost fs f e.post.id)) →
      ∀ f ∈ files,
        postsOf (processAll oracle fs entries) f
          = (postsOf fs f).map (transformPost oracle entries)
  | [], fs, _, _, f, hf => by
    rw [show processAll oracle fs [] = fs from rfl]
    exact (map_id_of _ _ (fun p _ => transformPost_nil oracle p)).symm
  | e :: rest, fs, hnd, hex, f, hf => by
    simp only [List.map_cons, List.nodup_cons] at hnd
    cases ho : oracle e.post with
    | error err =>
      have hstep : processAll oracle fs (e :: rest) = processAll oracle fs rest := by
        simp [processAll, ho]
      rw [hstep]
      rw [processAll_postsOf oracle files hndf rest fs hnd.2
        (fun e' he' => hex e' (List.mem_cons_of_mem _ he')) f hf]
      exact (List.map_congr_left (fun p _ =>
        transformPost_cons_error oracle e rest (by rw [ho]; rfl) hnd.1 p)).symm
    | ok t =>
      have hstep : processAll oracle fs (e :: rest)
          = processAll oracle (writeSummaryToFiles fs e.post.id t e.files).1 rest := by
        simp [processAll, ho]
      rw [hstep]
      have hA := writeSummary_postsOf fs files hndf e t
        (hex e (List.mem_cons_self _ _))
      have hex1 : ∀ e' ∈ rest, e'.files
          = files.filter (fun f =>
              fileHasPost (writeSummaryToFiles fs e.post.id t e.files).1 f
                e'.post.id) := by
        intro e' he'
        rw [hex e' (List.mem_cons_of_mem _ he')]
        apply List.filter_congr
        intro g hg
        exact (fileHasPost_of_map _ fs g _ (postApply_id _ _ _) (hA g hg) _).symm
      rw [processAll_postsOf oracle files hndf rest _ hnd.2 hex1 f hf]
      rw [hA f hf, List.map_map]
      exact (List.map_congr_left (fun p _ =>
        transformPost_cons_ok oracle e rest t ho hnd.1 p)).symm

lemma runPipeline_fs_processAll (oracle : Post → Except GenError String)
    (fs : FS) (files : List String) :
    (runPipeline oracle fs files).1.fs
      = processAll oracle fs (collectPostsNeedingSummary fs files) := by
  by_cases h : collectPostsNeedingSummary fs files = []
  · rw [runPipeline_of_empty oracle fs files h, h]
    rfl
  · rw [runPipeline_state oracle fs files h, runBatches_fs, chunk_flatten]
    rfl

lemma needs_files_exact (fs : FS) (files : List String) (hnd : files.Nodup) :
    ∀ e ∈ collectPostsNeedingSummary fs files,
      e.files = files.filter (fun f => fileHasPost fs f e.post.id) := by
  intro e he
  rcases (mem_collectNeeds fs files e).mp he with ⟨⟨id, hmem⟩, _, _, _⟩
  have hchar := collectIndex_mem_char fs files hmem
  rw [hchar.2.1, hchar.2.2.2, setfold_filesOfId fs files id hnd]

lemma postsSeq_eq_pairs (fs : FS) (files : List String) :
    postsSeq fs files = (pairsOf fs files).map Prod.snd := by
  unfold postsSeq pairsOf
  rw [List.map_flatMap]
  congr 1
  funext f
  rw [List.map_map]
  simp

/-- C9: after a run in which every eligible post's generation succeeded
(with the non-empty text `generateSummary` guarantees), no post of any
listed document is eligible any more — every previously eligible post now
carries a truthy summary and everything else is unchanged — so a second
run finds nothing to do: it performs no generation call, no save, no
delay, no mutation, and exits 0 with the store byte-for-byte equal. -/
theorem second_run_idempotent (oracle oracle2 : Post → Except GenError String)
    (fs : FS) (files : List String) (hnd : files.Nodup)
    (hok : ∀ e ∈ collectPostsNeedingSummary fs files,
      oracleOkNonempty oracle e = true) :
    collectPostsNeedingSummary (runPipeline oracle fs files).1.fs files = [] ∧
    runPipeline oracle2 (runPipeline oracle fs files).1.fs files
      = (initState (runPipeline oracle fs files).1.fs, 0) := by
  have hfs1 : (runPipeline oracle fs files).1.fs
      = processAll oracle fs (collectPostsNeedingSummary fs files) :=
    runPipeline_fs_processAll oracle fs files
  have hndids := needs_ids_nodup fs files
  have hexact := needs_files_exact fs files hnd
  have hRUN : ∀ f ∈ files,
      postsOf (runPipeline oracle fs files).1.fs f
        = (postsOf fs f).map
            (transformPost oracle (collectPostsNeedingSummary fs files)) := by
    rw [hfs1]
    exact processAll_postsOf oracle files hnd _ fs hndids hexact
  have hmain : collectPostsNeedingSummary (runPipeline oracle fs files).1.fs files
      = [] := by
    rw [List.eq_nil_iff_forall_not_mem]
    intro e1 he1
    rcases (mem_collectNeeds _ files e1).mp he1 with ⟨⟨id, hmem⟩, hsum, hcont, hlen⟩
    have hchar := collectIndex_mem_char _ files hmem
    have hid : id ≠ "" := hchar.1
    have hfind1 := hchar.2.2.1
    rw [postsSeq_map (transformPost oracle (collectPostsNeedingSummary fs files))
      _ fs files hRUN, List.find?_map] at hfind1
    have hpred : ((fun p => decide (p.id = id))
        ∘ (transformPost oracle (collectPostsNeedingSummary fs files)))
        = (fun p => decide (p.id = id)) := by
      funext p
      simp [Function.comp, transformPost_id]
    rw [hpred] at hfind1
    rcases Option.map_eq_some'.mp hfind1 with ⟨p0, hp0find, hp0eq⟩
    have hp0id : p0.id = id := by simpa using List.find?_some hp0find
    rw [postsSeq_eq_pairs, List.find?_map] at hp0find
    have hpred2 : ((fun p => decide (p.id = id)) ∘ (Prod.snd : String × Post → Post))
        = (fun q : String × Post => decide (q.2.id = id)) := rfl
    rw [hpred2] at hp0find
    rcases Option.map_eq_some'.mp hp0find with ⟨q, hqfind, hq2⟩
    have hpm : pmFind (collectIndex fs files) id
        = some ⟨q.2, List.foldl setAdd [] (filesOfId (pairsOf fs files) id)⟩ := by
      rw [collectIndex_def_go, pmFind_collectGo id hid (pairsOf fs files) []]
      simp only [pmFind]
      rw [hqfind]
    have hmem0 := mem_of_pmFind hpm
    cases hsig : sigmaOf oracle (collectPostsNeedingSummary fs files) id with
    | some t =>
      have ht : t ≠ "" := by
        unfold sigmaOf at hsig
        cases hfind : (collectPostsNeedingSummary fs files).find?
            (fun e => decide (e.post.id = id)) with
        | none =>
          rw [hfind] at hsig
          exact Option.noConfusion hsig
        | some e' =>
          rw [hfind] at hsig
          have hsig2 : (match oracle e'.post with
              | Except.ok t => some t
              | Except.error _ => none) = some t := hsig
          have hoke' := hok e' (List.mem_of_find?_eq_some hfind)
          unfold oracleOkNonempty at hoke'
          cases hoo : oracle e'.post with
          | ok t' =>
            rw [hoo] at hsig2 hoke'
            cases hsig2
            simpa using hoke'
          | error err =>
            rw [hoo] at hsig2
            cases hsig2
      have he1post : e1.post = applyToPost (parseBilingualContent t) t p0 := by
        rw [← hp0eq]
        unfold transformPost
        rw [hp0id, hsig]
      have hs : (applyToPost (parseBilingualContent t) t p0).summary
          = (if strTruthy (parseBilingualContent t).summaryZh
                && strTruthy (parseBilingualContent t).summaryEn
             then some ((parseBilingualContent t).summaryZh.getD ""
                ++ SEP ++ (parseBilingualContent t).summaryEn.getD "")
             else some t) := rfl
      have hsumtrue : strTruthy e1.post.summary = true := by
        rw [he1post, hs]
        by_cases hc : (strTruthy (parseBilingualContent t).summaryZh
            && strTruthy (parseBilingualContent t).summaryEn) = true
        · rw [if_pos hc]
          simp only [strTruthy]
          rw [if_neg (combined_ne_empty _ _)]
        · rw [if_neg hc]
          simp only [strTruthy]
          rw [if_neg ht]
      rw [hsum] at hsumtrue
      cases hsumtrue
    | none =>
      have he1p : e1.post = p0 := by
        rw [← hp0eq]
        unfold transformPost
        rw [hp0id, hsig]
      have hqpred : q.2.id = id := by simpa using List.find?_some hqfind
      have hmemneeds : (⟨q.2, List.foldl setAdd []
          (filesOfId (pairsOf fs files) id)⟩ : IndexEntry)
          ∈ collectPostsNeedingSummary fs files := by
        apply (mem_collectNeeds fs files _).mpr
        refine ⟨⟨id, hmem0⟩, ?_, ?_, ?_⟩
        · rw [show (⟨q.2, List.foldl setAdd []
            (filesOfId (pairsOf fs files) id)⟩ : IndexEntry).post = q.2 from rfl,
            hq2, ← he1p]
          exact hsum
        · rw [show (⟨q.2, List.foldl setAdd []
            (filesOfId (pairsOf fs files) id)⟩ : IndexEntry).post = q.2 from rfl,
            hq2, ← he1p]
          exact hcont
        · rw [show (⟨q.2, List.foldl setAdd []
            (filesOfId (pairsOf fs files) id)⟩ : IndexEntry).post = q.2 from rfl,
            hq2, ← he1p]
          exact hlen
      have hfindnone : (collectPostsNeedingSummary fs files).find?
          (fun e => decide (e.post.id = id)) = none := by
        cases hfind : (collectPostsNeedingSummary fs files).find?
            (fun e => decide (e.post.id = id)) with
        | none => rfl
        | some e' =>
          exfalso
          have hoke' := hok e' (List.mem_of_find?_eq_some hfind)
          unfold oracleOkNonempty at hoke'
          cases hoo : oracle e'.post with
          | ok t' =>
            unfold sigmaOf at hsig
            rw [hfind] at hsig
            have hsig2 : (match oracle e'.post with
                | Except.ok t => some t
                | Except.error _ => none) = none := hsig
            rw [hoo] at hsig2
            cases hsig2
          | error err =>
            rw [hoo] at hoke'
            cases hoke'
      rw [List.find?_eq_none] at hfindnone
      apply hfindnone _ hmemneeds
      simp [hqpred]
  exact ⟨hmain, runPipeline_of_empty oracle2 _ files hmain⟩

/-- Witness for `second_run_idempotent` at the concrete two-document
store with an always-succeeding first-run oracle. -/
theorem second_run_idempotent_witness :
    exFiles.Nodup ∧
    (∀ e ∈ collectPostsNeedingSummary exFS exFiles,
        oracleOkNonempty wOracle e = true) ∧
    (collectPostsNeedingSummary (runPipeline wOracle exFS exFiles).1.fs exFiles
        = [] ∧
     runPipeline wOracle2 (runPipeline wOracle exFS exFiles).1.fs exFiles
       = (initState (runPipeline wOracle exFS exFiles).1.fs, 0)) :=
  ⟨by decide, by decide,
   second_run_idempotent wOracle wOracle2 exFS exFiles (by decide) (by decide)⟩

/-- Witness for `parser_totality_spec` at a concrete four-part input. -/
theorem parser_totality_spec_witness :
    (parseBilingualContent cFour).summaryEn.isSome = true ∧
    ((parseBilingualContent cFour).titleZh.isSome = true
      ↔ 4 ≤ (sSplit SEP cFour).length) ∧
    ((parseBilingualContent cFour).titleEn.isSome = true
      ↔ 4 ≤ (sSplit SEP cFour).length) ∧
    ((parseBilingualContent cFour).summaryZh.isSome = true
      ↔ 2 ≤ (sSplit SEP cFour).length) :=
  parser_totality_spec cFour

/-- Witness for `eligibility_spec` at the concrete store's entry. -/
theorem eligibility_spec_witness :
    (⟨exPost, ["latest.json", "archive.json"]⟩ : IndexEntry)
        ∈ collectPostsNeedingSummary exFS exFiles ↔
      (∃ id, (id, (⟨exPost, ["latest.json", "archive.json"]⟩ : IndexEntry))
          ∈ collectIndex exFS exFiles) ∧
      strTruthy (⟨exPost, ["latest.json", "archive.json"]⟩ : IndexEntry).post.summary
          = false ∧
      strTruthy (⟨exPost, ["latest.json", "archive.json"]⟩ : IndexEntry).post.content
          = true ∧
      MIN_CONTENT_LENGTH
        ≤ ((⟨exPost, ["latest.json", "archive.json"]⟩ : IndexEntry).post.content.getD
            "").length :=
  eligibility_spec exFS exFiles ⟨exPost, ["latest.json", "archive.json"]⟩

/-- Witness for `batch_orchestration_spec` at the concrete store. -/
theorem batch_orchestration_spec_witness :
    (chunkBatches (collectPostsNeedingSummary exFS exFiles)).flatten
        = collectPostsNeedingSummary exFS exFiles ∧
    (∀ b ∈ chunkBatches (collectPostsNeedingSummary exFS exFiles),
        b ≠ [] ∧ b.length ≤ BATCH_SIZE) ∧
    (∀ b ∈ (chunkBatches (collectPostsNeedingSummary exFS exFiles)).dropLast,
        b.length = BATCH_SIZE) ∧
    (runPipeline wOracle exFS exFiles).1.delays
        = List.replicate
            ((chunkBatches (collectPostsNeedingSummary exFS exFiles)).length - 1)
            BATCH_DELAY_MS :=
  batch_orchestration_spec wOracle exFS exFiles

/-- Witness for `failure_isolation_spec` at the concrete store with an
all-failing oracle. -/
theorem failure_isolation_spec_witness :
    (runPipeline wOracle2 exFS exFiles).1.successCount
        = ((collectPostsNeedingSummary exFS exFiles).filter (okB wOracle2)).length ∧
    (runPipeline wOracle2 exFS exFiles).1.failCount
        = ((collectPostsNeedingSummary exFS exFiles).filter
            (fun e => !(okB wOracle2 e))).length ∧
    (runPipeline wOracle2 exFS exFiles).1.fs
        = processAll wOracle2 exFS
            ((collectPostsNeedingSummary exFS exFiles).filter (okB wOracle2)) ∧
    ((runPipeline wOracle2 exFS exFiles).2 = 1 ↔
      ((collectPostsNeedingSummary exFS exFiles).filter (okB wOracle2)).length = 0
        ∧ collectPostsNeedingSummary exFS exFiles ≠ []) :=
  failure_isolation_spec wOracle2 exFS exFiles
